import Mathlib

/-!
# go-nolearn: the task store and the controller of `nolearn.go`

A shallow embedding of the task store (`NoLearn`) with its mutation, load and
save operations, and of the interactive controller (`display`, `handleInput`,
`promptForNewTask`, `main`), followed by the properties stated about them.

Modelling conventions.

* A Go `string` is a Lean `String` in the store model: task texts and
  statuses are sequences of Unicode code points (valid UTF-8).  Where the
  encoding matters, in `save` followed by `load`, a text is a `RawString`,
  which can hold bytes that are not valid UTF-8.
* A Go `int` is a Lean `Int`.  The only arithmetic on `cursor` is `cursor--`
  guarded by `cursor > 0`, `cursor++` guarded by `cursor < len(tasks)-1` and
  the assignment `len(tasks) - 1`, none of which can leave the 64-bit range.
* A slice `[]Task` is a `List Task`; the store is the only owner of its
  slice, so an in-place update is a functional update of the list.
* A run-time panic of Go (index or slice bounds out of range) is an explicit
  `Except.error`; an operation that returns normally yields `Except.ok`.
* A method with a pointer receiver `(nl *NoLearn)` takes the store and returns
  the store it leaves behind.
* Input and output are explicit: the file system is a value passed in and out,
  the results of `keyboard.GetKey()` and the lines of standard input are
  arguments, and what is printed, saved or done to the keyboard is a trace of
  events.
-/

namespace Nolearn

/-! ## Data model -/

/-- Go `type Status string`: a status is any string. -/
abbrev Status := String

/-- Go `Todo Status = "todo"`. -/
def Todo : Status := "todo"

/-- Go `Seen Status = "seen"`. -/
def Seen : Status := "seen"

/-- Go `Done Status = "done"`. -/
def Done : Status := "done"

/-- Go `type Task struct { Text string; Status Status }`. -/
structure Task where
  Text : String
  Status : Status
deriving DecidableEq, Repr

/-- Go `type NoLearn struct { tasks []Task; cursor int; filename string }`. -/
structure NoLearn where
  tasks : List Task
  cursor : Int
  filename : String
deriving DecidableEq, Repr

/-- The run-time panics of Go that the store operations can raise. -/
inductive Fault where
  | indexOutOfRange (index : Int) (length : Nat)
  | sliceBoundsOutOfRange (bound : Int) (length : Nat)
deriving DecidableEq, Repr

deriving instance DecidableEq for Except

/-- The index expression `xs[i]` of Go: panics unless `0 <= i < len(xs)`. -/
def index (xs : List Task) (i : Int) : Except Fault Task :=
  match xs[i.toNat]? with
  | some t => if 0 ≤ i then .ok t else .error (.indexOutOfRange i xs.length)
  | none => .error (.indexOutOfRange i xs.length)

/-- The slice expression `xs[:hi]` of Go: panics unless `0 <= hi <= len(xs)`
(Go allows `hi` up to the capacity; the length is the stricter bound). -/
def sliceTo (xs : List Task) (hi : Int) : Except Fault (List Task) :=
  if 0 ≤ hi ∧ hi ≤ xs.length then .ok (xs.take hi.toNat)
  else .error (.sliceBoundsOutOfRange hi xs.length)

/-- The slice expression `xs[lo:]` of Go: panics unless `0 <= lo <= len(xs)`. -/
def sliceFrom (xs : List Task) (lo : Int) : Except Fault (List Task) :=
  if 0 ≤ lo ∧ lo ≤ xs.length then .ok (xs.drop lo.toNat)
  else .error (.sliceBoundsOutOfRange lo xs.length)

/-! ## Store operations -/

/-- Go `newNoLearn(filename)`: the empty store with cursor 0. -/
def newNoLearn (filename : String) : NoLearn :=
  { tasks := [], cursor := 0, filename := filename }

/-- Go `addTask(text)`: returns at once on the empty text, otherwise appends
`Task{Text: text, Status: Todo}` and sets the cursor to `len(tasks) - 1`. -/
def addTask (nl : NoLearn) (text : String) : NoLearn :=
  if text = "" then nl
  else
    let newTask : Task := { Text := text, Status := Todo }
    let tasks := nl.tasks ++ [newTask]
    { nl with tasks := tasks, cursor := (tasks.length : Int) - 1 }

/-- Go `deleteCurrentTask()`: guarded by
`len(tasks) == 0 || cursor < 0 || cursor >= len(tasks)`; then
`tasks = append(tasks[:cursor], tasks[cursor+1:]...)` and the cursor is
adjusted. -/
def deleteCurrentTask (nl : NoLearn) : Except Fault NoLearn :=
  if nl.tasks.length = 0 ∨ nl.cursor < 0 ∨ nl.cursor ≥ nl.tasks.length then .ok nl
  else
    match sliceTo nl.tasks nl.cursor, sliceFrom nl.tasks (nl.cursor + 1) with
    | .ok front, .ok back =>
      let tasks := front ++ back
      if tasks.length = 0 then
        .ok { nl with tasks := tasks, cursor := 0 }
      else if nl.cursor ≥ tasks.length then
        .ok { nl with tasks := tasks, cursor := (tasks.length : Int) - 1 }
      else
        .ok { nl with tasks := tasks }
    | .error e, _ => .error e
    | _, .error e => .error e

/-- Go `moveCursorUp()`: `if cursor > 0 { cursor-- }`. -/
def moveCursorUp (nl : NoLearn) : NoLearn :=
  if nl.cursor > 0 then { nl with cursor := nl.cursor - 1 } else nl

/-- Go `moveCursorDown()`: `if cursor < len(tasks)-1 { cursor++ }`. -/
def moveCursorDown (nl : NoLearn) : NoLearn :=
  if nl.cursor < (nl.tasks.length : Int) - 1 then { nl with cursor := nl.cursor + 1 } else nl

/-- The `switch` of `cycleStatusForward`: `Todo` becomes `Seen`, `Seen`
becomes `Done`, no other case. -/
def forwardStatus (s : Status) : Status :=
  if s = Todo then Seen
  else if s = Seen then Done
  else s

/-- The `switch` of `cycleStatusBackward`: `Seen` becomes `Todo`, `Done`
becomes `Seen`, no other case. -/
def backwardStatus (s : Status) : Status :=
  if s = Seen then Todo
  else if s = Done then Seen
  else s

/-- Go `cycleStatusForward()`: returns at once when `len(tasks) == 0`; otherwise
takes `currentTask := &tasks[cursor]` (which panics on an index out of range)
and rewrites its status through the switch. -/
def cycleStatusForward (nl : NoLearn) : Except Fault NoLearn :=
  if nl.tasks.length = 0 then .ok nl
  else
    match index nl.tasks nl.cursor with
    | .error e => .error e
    | .ok currentTask =>
      let updated : Task := { currentTask with Status := forwardStatus currentTask.Status }
      .ok { nl with tasks := nl.tasks.set nl.cursor.toNat updated }

/-- Go `cycleStatusBackward()`: returns at once when `len(tasks) == 0`; otherwise
takes `currentTask := &tasks[cursor]` (which panics on an index out of range)
and rewrites its status through the switch. -/
def cycleStatusBackward (nl : NoLearn) : Except Fault NoLearn :=
  if nl.tasks.length = 0 then .ok nl
  else
    match index nl.tasks nl.cursor with
    | .error e => .error e
    | .ok currentTask =>
      let updated : Task := { currentTask with Status := backwardStatus currentTask.Status }
      .ok { nl with tasks := nl.tasks.set nl.cursor.toNat updated }

/-! ## Sequences of store operations -/

/-- One call of a mutation operation of the store. -/
inductive Op where
  | addTask (text : String)
  | deleteCurrentTask
  | moveCursorUp
  | moveCursorDown
  | cycleStatusForward
  | cycleStatusBackward
deriving DecidableEq, Repr

/-- The effect of one call on the store. -/
def Op.apply (op : Op) (nl : NoLearn) : Except Fault NoLearn :=
  match op with
  | .addTask text => .ok (Nolearn.addTask nl text)
  | .deleteCurrentTask => Nolearn.deleteCurrentTask nl
  | .moveCursorUp => .ok (Nolearn.moveCursorUp nl)
  | .moveCursorDown => .ok (Nolearn.moveCursorDown nl)
  | .cycleStatusForward => Nolearn.cycleStatusForward nl
  | .cycleStatusBackward => Nolearn.cycleStatusBackward nl

/-- The calls of `ops` made one after the other, stopping at the first
panic. -/
def runOps (ops : List Op) (nl : NoLearn) : Except Fault NoLearn :=
  match ops with
  | [] => .ok nl
  | op :: rest =>
    match op.apply nl with
    | .ok nl' => runOps rest nl'
    | .error e => .error e

/-- The session-state invariant: the cursor indexes the list when the list is
non-empty and is 0 when it is empty. -/
def Inv (nl : NoLearn) : Prop :=
  (nl.tasks ≠ [] → 0 ≤ nl.cursor ∧ nl.cursor < nl.tasks.length) ∧
  (nl.tasks = [] → nl.cursor = 0)

instance (nl : NoLearn) : Decidable (Inv nl) := by
  unfold Inv; infer_instance

/-- The store after a task list has been loaded into a fresh store: `load`
assigns `tasks` and leaves the cursor of `newNoLearn` at 0. -/
def loaded (filename : String) (tasks : List Task) : NoLearn :=
  { newNoLearn filename with tasks := tasks }

/-! ## The new-task prompt -/

/-- Go `unicode.IsSpace` of the standard library: the Unicode White_Space
code points. -/
def isSpace (r : Char) : Bool :=
  let n := r.toNat
  (0x09 ≤ n && n ≤ 0x0D) || n == 0x20 || n == 0x85 || n == 0xA0 || n == 0x1680 ||
  (0x2000 ≤ n && n ≤ 0x200A) || n == 0x2028 || n == 0x2029 || n == 0x202F ||
  n == 0x205F || n == 0x3000

/-- Go `strings.TrimSpace` of the standard library: the string without its
leading and trailing white space. -/
def TrimSpace (s : String) : String :=
  String.mk ((s.data.dropWhile isSpace).rdropWhile isSpace)

/-- The effect of `promptForNewTask()` on the store, given the text that
`reader.ReadString` returned: `text = strings.TrimSpace(text)` and then
`nl.addTask(text)`.  The terminal and keyboard calls around it do not touch
the store. -/
def promptForNewTask (nl : NoLearn) (text : String) : NoLearn :=
  addTask nl (TrimSpace text)

/-! ## Persistence

`load` and `save` go through `os.Open`, `os.Create` and the `encoding/json`
package of the Go standard library.  The file system is a state passed in and
out; a file holds the text of a JSON value, or something else; the struct tags
of `Task` fix how a task list corresponds to a JSON value.  The text-level
printing and scanning of a JSON value is the library's and is not unfolded:
the value written is the value read back. -/

/-- A JSON value. -/
inductive JSON where
  | null
  | bool (b : Bool)
  | number (literal : String)
  | string (s : String)
  | array (elems : List JSON)
  | object (members : List (String × JSON))

/-- What a file holds, as the JSON decoder sees it: `json v` when the file
starts with the text of the JSON value `v` (`Decode` reads one value and does
not look at what follows it), `invalid` when no JSON value can be read from
the start of the file (the empty file included). -/
inductive FileData where
  | json (v : JSON)
  | invalid

/-- The errors that `load` and `save` can return. -/
inductive Error where
  | osOpen
  | osCreate
  | write
  | malformed
  | unmarshalType
deriving DecidableEq, Repr

/-- The file system, as far as `load` and `save` observe it.
`files path` is the content of the file at `path`, `none` when there is no
such file; `openError path` says that `os.Open(path)` fails with an error for
which `os.IsNotExist` is false; `createError path` says that `os.Create(path)`
fails; `writeError path` is `some d` when writing to the created file fails,
leaving the content `d` behind. -/
structure FS where
  files : String → Option FileData
  openError : String → Bool
  createError : String → Bool
  writeError : String → Option FileData

/-- The file system after the file at `path` has received the content `d`. -/
def FS.put (fs : FS) (path : String) (d : FileData) : FS :=
  { fs with files := fun p => if p = path then some d else fs.files p }

/-- A file system without files in which no operation fails. -/
def FS.empty : FS :=
  { files := fun _ => none, openError := fun _ => false,
    createError := fun _ => false, writeError := fun _ => none }

/-- The JSON object that `encoding/json` writes for a `Task`, following the
struct tags `json:"text"` and `json:"status"`.  The text is written as it is,
which is exact for valid UTF-8; `encodeRawTask` covers every text. -/
def encodeTask (t : Task) : JSON :=
  .object [("text", .string t.Text), ("status", .string t.Status)]

/-- The JSON array that `encoder.Encode(nl.tasks)` writes: one object per task,
in list order.  (A nil slice, which Go writes as `null`, is not told apart from
the empty slice here; both are read back as the empty list.  `encodeRawTasks`
keeps them apart.) -/
def encodeTasks (tasks : List Task) : JSON :=
  .array (tasks.map encodeTask)

/-- The two fields of `Task`. -/
inductive Field where
  | text
  | status
deriving DecidableEq, Repr

/-- The case folding under which `encoding/json` matches an object key against
a field name: ASCII letters fold to upper case, and the long s (U+017F) and the
Kelvin sign (U+212A) fold to `S` and `K`; no other character folds to an ASCII
letter. -/
def foldRune (c : Char) : Char :=
  if c.toNat = 0x17F then 'S'
  else if c.toNat = 0x212A then 'K'
  else c.toUpper

/-- The folded form of a key or field name. -/
def foldName (s : String) : String :=
  String.mk (s.data.map foldRune)

/-- The field of `Task` that an object key selects, if any: the key matches a
tag exactly or under case folding. -/
def fieldOf (key : String) : Option Field :=
  if foldName key = foldName "text" then some .text
  else if foldName key = foldName "status" then some .status
  else none

/-- Decoding one object member into a task: a string value is stored in the
selected field, `null` leaves it alone, every other value is a type error that
is recorded while decoding goes on; a key that selects no field is skipped. -/
def decodeMember (acc : Task × Bool) (member : String × JSON) : Task × Bool :=
  match fieldOf member.1, member.2 with
  | none, _ => acc
  | some .text, .string s => ({ acc.1 with Text := s }, acc.2)
  | some .status, .string s => ({ acc.1 with Status := s }, acc.2)
  | some _, .null => acc
  | some _, _ => (acc.1, true)

/-- Decoding a JSON value into the task `target`; the flag records a type
error.  An object is decoded member by member, `null` leaves the task alone,
every other value is a type error. -/
def decodeTask (target : Task) (v : JSON) : Task × Bool :=
  match v with
  | .object members => members.foldl decodeMember (target, false)
  | .null => (target, false)
  | _ => (target, true)

/-- The zero value `Task{}`. -/
def Task.zero : Task := { Text := "", Status := "" }

/-- The loop of the decoder over the elements of a JSON array: the element at
index `i` is decoded into the task already at index `i` of the slice, or into
a zero `Task` past the length of the slice.  (Past its length Go reuses the
spare capacity of the slice, if there is any, which a list does not hold: the
definition is exact for a slice without spare capacity, such as the one of
`newNoLearn`, the only store `main` loads into.) -/
def decodeElems (targets : List Task) (elems : List JSON) : List (Task × Bool) :=
  match elems, targets with
  | [], _ => []
  | e :: es, [] => decodeTask Task.zero e :: decodeElems [] es
  | e :: es, t :: ts => decodeTask t e :: decodeElems ts es

/-- The effect of `decoder.Decode(&nl.tasks)` on the task slice for a
JSON value `v`, with the error it returns.  An array yields one task per
element, decoded by `decodeElems`; `null` yields the nil slice; every other
value is a type error that leaves the slice alone.  A type error inside an
element does not stop the decoding: the tasks decoded so far and after it are
stored, and the error is returned at the end. -/
def decodeTasks (tasks : List Task) (v : JSON) : List Task × Option Error :=
  match v with
  | .array elems =>
    let decoded := decodeElems tasks elems
    (decoded.map Prod.fst, if decoded.any Prod.snd then some .unmarshalType else none)
  | .null => ([], none)
  | _ => (tasks, some .unmarshalType)

/-- Go `load()`: `os.Open(nl.filename)`; a missing file is success without any
change, any other failure is returned; otherwise the result of
`decoder.Decode(&nl.tasks)`.  A file from which no JSON value can be read is a
malformed-input error found before anything is stored. -/
def load (nl : NoLearn) (fs : FS) : NoLearn × Option Error :=
  if fs.openError nl.filename then (nl, some .osOpen)
  else
    match fs.files nl.filename with
    | none => (nl, none)
    | some .invalid => (nl, some .malformed)
    | some (.json v) =>
      let r := decodeTasks nl.tasks v
      ({ nl with tasks := r.1 }, r.2)

/-- Go `save()`: `os.Create(nl.filename)`, whose failure is returned; otherwise
`encoder.Encode(nl.tasks)` into the created file, whose write failure is
returned.  The cursor is not part of what is written. -/
def save (nl : NoLearn) (fs : FS) : FS × Option Error :=
  if fs.createError nl.filename then (fs, some .osCreate)
  else
    match fs.writeError nl.filename with
    | some left => (fs.put nl.filename left, some .write)
    | none => (fs.put nl.filename (.json (encodeTasks nl.tasks)), none)

/-! ## Malformed file contents

What the decoder rejects, told from the shape of the JSON value alone. -/

/-- A value that cannot be stored in a string field of `Task`: anything but a
JSON string or `null`. -/
def notStringOrNull (v : JSON) : Bool :=
  match v with
  | .string _ => false
  | .null => false
  | _ => true

/-- An array element that is ill-typed for `Task`: it is neither an object nor
`null`, or it is an object in which a key selecting a field of `Task` carries a
value that is neither a string nor `null`. -/
def illTypedElement (v : JSON) : Bool :=
  match v with
  | .object members => members.any (fun m => (fieldOf m.1).isSome && notStringOrNull m.2)
  | .null => false
  | _ => true

/-- A top-level value that is ill-typed for `[]Task`: neither an array nor
`null`. -/
def illTypedTop (v : JSON) : Bool :=
  match v with
  | .array _ => false
  | .null => false
  | _ => true

/-- The well-formed array element in the words of the spec (section 6): an
object with two fields, a string field for the text and a string field for the
status, in either order. -/
def validTaskObject (v : JSON) : Bool :=
  match v with
  | .object [(k1, .string _), (k2, .string _)] =>
    (k1 == "text" && k2 == "status") || (k1 == "status" && k2 == "text")
  | _ => false

/-- The well-formed file content in the words of the spec (section 6): an
array of well-formed task objects.  Every other content is malformed. -/
def validEncoding (d : FileData) : Bool :=
  match d with
  | .json (.array elems) => elems.all validTaskObject
  | _ => false

/-- A file system without files in which every `os.Open` fails with an error
other than does-not-exist, as it does for a path below a regular file (not a
directory) or below a directory that may not be searched (permission
denied). -/
def FS.openFails : FS :=
  { FS.empty with openError := fun _ => true }

/-! ## Texts that are not valid UTF-8

A Go string is a sequence of bytes.  The store model above takes every text
to be valid UTF-8, which is what a `String` holds and what `load` always
produces; `reader.ReadString` however returns whatever bytes standard input
delivers.  To say what `save` and `load` do with such a text, a text is taken
here as UTF-8 decoding reads it from left to right, and a slice keeps the
difference between nil and empty.  `NoLearn.toRaw` embeds the store model; on
embedded stores `saveRaw` is `save`, and `loadFreshRaw` is `load` on a fresh
store. -/

/-- One step of `utf8.DecodeRuneInString`: a code point, or a byte at which
the decoder reports an encoding error of width 1. -/
inductive Code where
  | rune (c : Char)
  | invalid (byte : Nat)
deriving DecidableEq, Repr

/-- A Go string, read from left to right by the UTF-8 decoder. -/
abbrev RawString := List Code

/-- The Go string whose bytes are the UTF-8 encoding of `s`. -/
def RawString.ofString (s : String) : RawString :=
  s.data.map Code.rune

/-- A string is valid UTF-8 when decoding it meets no invalid byte. -/
def RawString.valid (s : RawString) : Bool :=
  s.all (fun c => match c with
    | .rune _ => true
    | .invalid _ => false)

/-- The text that `encoding/json` writes for a Go string: it is coerced to
valid UTF-8, every invalid byte being replaced by U+FFFD. -/
def RawString.toValidUTF8 (s : RawString) : String :=
  String.mk (s.map (fun c => match c with
    | .rune r => r
    | .invalid _ => Char.ofNat 0xFFFD))

/-- Go `Task`, with a text that need not be valid UTF-8. -/
structure RawTask where
  Text : RawString
  Status : Status
deriving DecidableEq, Repr

/-- Go `[]Task`: the nil slice, or a slice with its elements. -/
inductive RawSlice where
  | nil
  | elems (tasks : List RawTask)
deriving DecidableEq, Repr

/-- The sequence of tasks of a slice; the nil slice has none. -/
def RawSlice.toList (s : RawSlice) : List RawTask :=
  match s with
  | .nil => []
  | .elems tasks => tasks

/-- Go `NoLearn`, with raw texts and a slice that may be nil. -/
structure RawNoLearn where
  tasks : RawSlice
  cursor : Int
  filename : String
deriving DecidableEq, Repr

/-- Go `newNoLearn(filename)`: the slice is `[]Task{}`, empty and not nil. -/
def newRawNoLearn (filename : String) : RawNoLearn :=
  { tasks := .elems [], cursor := 0, filename := filename }

/-- The same task with its text as a Go string. -/
def Task.toRaw (t : Task) : RawTask :=
  { Text := RawString.ofString t.Text, Status := t.Status }

/-- The same store with its texts as Go strings and its list as a slice that
is not nil. -/
def NoLearn.toRaw (nl : NoLearn) : RawNoLearn :=
  { tasks := .elems (nl.tasks.map Task.toRaw), cursor := nl.cursor, filename := nl.filename }

/-- Go `unicode.IsSpace` on one step of the decoding: an invalid byte is read
as U+FFFD, which is not white space. -/
def Code.isSpace (c : Code) : Bool :=
  match c with
  | .rune r => Nolearn.isSpace r
  | .invalid _ => false

/-- Go `strings.TrimSpace` on a Go string. -/
def RawString.TrimSpace (s : RawString) : RawString :=
  (s.dropWhile Code.isSpace).rdropWhile Code.isSpace

/-- Go `append(s, t)`: the result is never nil. -/
def RawSlice.append (s : RawSlice) (t : RawTask) : RawSlice :=
  .elems (s.toList ++ [t])

/-- Go `addTask(text)` on a store with raw texts. -/
def addTaskRaw (nl : RawNoLearn) (text : RawString) : RawNoLearn :=
  if text = [] then nl
  else
    let tasks := nl.tasks.append { Text := text, Status := Todo }
    { nl with tasks := tasks, cursor := (tasks.toList.length : Int) - 1 }

/-- The effect of `promptForNewTask()` on a store with raw texts, given the
bytes that `reader.ReadString` returned. -/
def promptForNewTaskRaw (nl : RawNoLearn) (text : RawString) : RawNoLearn :=
  addTaskRaw nl (RawString.TrimSpace text)

/-- The JSON object that `encoding/json` writes for a `Task`: the text coerced
to valid UTF-8 under the key `text`, the status under the key `status`. -/
def encodeRawTask (t : RawTask) : JSON :=
  .object [("text", .string t.Text.toValidUTF8), ("status", .string t.Status)]

/-- The JSON value that `encoder.Encode(nl.tasks)` writes: `null` for the nil
slice, otherwise the array of the task objects in order. -/
def encodeRawTasks (s : RawSlice) : JSON :=
  match s with
  | .nil => .null
  | .elems tasks => .array (tasks.map encodeRawTask)

/-- Go `save()` on a store with raw texts: as `save`, writing
`encodeRawTasks`. -/
def saveRaw (nl : RawNoLearn) (fs : FS) : FS × Option Error :=
  if fs.createError nl.filename then (fs, some .osCreate)
  else
    match fs.writeError nl.filename with
    | some left => (fs.put nl.filename left, some .write)
    | none => (fs.put nl.filename (.json (encodeRawTasks nl.tasks)), none)

/-- The effect of `decoder.Decode(&nl.tasks)` on the slice of a fresh store:
`null` sets the slice to nil, an array yields the tasks that `decodeTasks`
yields for an empty slice, every other value leaves the empty slice alone.
The texts read from JSON strings are valid UTF-8. -/
def decodeFreshRaw (v : JSON) : RawSlice × Option Error :=
  match v with
  | .null => (.nil, none)
  | .array elems =>
    (.elems ((decodeTasks [] (.array elems)).1.map Task.toRaw), (decodeTasks [] (.array elems)).2)
  | _ => (.elems [], some .unmarshalType)

/-- Go `newNoLearn(filename)` followed by `load()`, as in `main`, with raw
texts. -/
def loadFreshRaw (filename : String) (fs : FS) : RawNoLearn × Option Error :=
  if fs.openError filename then (newRawNoLearn filename, some .osOpen)
  else
    match fs.files filename with
    | none => (newRawNoLearn filename, none)
    | some .invalid => (newRawNoLearn filename, some .malformed)
    | some (.json v) =>
      ({ newRawNoLearn filename with tasks := (decodeFreshRaw v).1 }, (decodeFreshRaw v).2)

/-! ## The interactive controller

The controller talks to the terminal, the keyboard and the file system.  What
it does there is recorded as a trace of events, in the order of the calls. -/

/-- Go `keyboard.Key`, as far as `handleInput` tells keys apart: the three
named keys it tests, and every other key code. -/
inductive Key where
  | KeyEsc
  | KeyArrowUp
  | KeyArrowDown
  | other (code : Nat)
deriving DecidableEq, Repr

/-- One observable action of the controller.
`clearScreen` is a call of `clearScreen()`; `print text` is `text` written to
standard output by `fmt.Print`, `fmt.Println` or `fmt.Printf`;
`printError format err` is `fmt.Printf(format, err)` for an error of `load` or
`save`; `printKeyboardError format` is `fmt.Printf(format, err)` for an error
of the keyboard package; `keyboardOpen` and `keyboardClose` are the calls of
`keyboard.Open()` and `keyboard.Close()`; `readString text` is a call of
`reader.ReadString` that returned `text`; `save tasks result` is a call of
`nl.save()` made when the store held `tasks`, with the error it returned. -/
inductive Event where
  | clearScreen
  | print (text : String)
  | printError (format : String) (err : Error)
  | printKeyboardError (format : String)
  | keyboardOpen
  | keyboardClose
  | readString (text : String)
  | save (tasks : List Task) (result : Option Error)
deriving DecidableEq, Repr

/-- Go `showCursor()`: prints the ANSI sequence that shows the cursor. -/
def showCursor : List Event := [.print "\x1b[?25h"]

/-- Go `hideCursor()`: prints the ANSI sequence that hides the cursor. -/
def hideCursor : List Event := [.print "\x1b[?25l"]

/-- The `switch` of `display` that picks the status marker; a status that is
none of the three constants leaves the marker at its zero value, the empty
string. -/
def statusMarker (s : Status) : String :=
  if s = Todo then "[ ]"
  else if s = Seen then "[~]"
  else if s = Done then "[✓]"
  else ""

/-- The cursor marker of `display` for the task at index `i`: two blanks,
replaced by the arrow and a blank when `i == nl.cursor`. -/
def cursorMarker (cursor : Int) (i : Nat) : String :=
  if (i : Int) = cursor then "▶ " else "  "

/-- The loop `for i, task := range nl.tasks` of `display`, from index `i` on:
one `fmt.Printf("%s%s %s\n", ...)` per task. -/
def displayTasks (cursor : Int) (i : Nat) (tasks : List Task) : List Event :=
  match tasks with
  | [] => []
  | task :: rest =>
    .print (cursorMarker cursor i ++ statusMarker task.Status ++ " " ++ task.Text ++ "\n")
      :: displayTasks cursor (i + 1) rest

/-- Go `display()`: clears the screen, prints the banner and the legend, then
the empty-state hint for an empty list, or else the count header and the task
lines. -/
def display (nl : NoLearn) : List Event :=
  [.clearScreen,
   .print "Nolearn. Press 'q' or ESC to quit.\n",
   .print "Controls: e/↑=up, d/↓=down, f=cycle status forward, s=cycle status backward, n=new task, x=delete\n"]
  ++ (if nl.tasks.length = 0 then
        [.print "No tasks. Press 'n' to add a new task.\n"]
      else
        .print ("Tasks (" ++ toString nl.tasks.length ++ " total):\n\n")
          :: displayTasks nl.cursor 0 nl.tasks)

/-- The terminal, keyboard and input calls of `promptForNewTask()`, in order,
when `reader.ReadString` returns `text`: show the cursor, close the keyboard,
print the prompt, read the line, and on return the deferred calls, last
registered first: reopen the keyboard, hide the cursor. -/
def promptForNewTaskTrace (text : String) : List Event :=
  showCursor ++ [.keyboardClose, .print "\r\nEnter new task: ", .readString text, .keyboardOpen]
    ++ hideCursor

/-- What a call of `handleInput` that returns leaves behind: the value
returned, the store, the file system, and the trace of the call. -/
structure Handled where
  shouldQuit : Bool
  nl : NoLearn
  fs : FS
  trace : List Event

/-- The statement `nl.save()` of `handleInput`, whose returned error is
dropped, followed by the `return false` that ends the function: the file
system after the save and the save event, after the events `before`. -/
def saveDiscard (nl : NoLearn) (fs : FS) (before : List Event) : Handled :=
  { shouldQuit := false, nl := nl, fs := (save nl fs).1,
    trace := before ++ [.save nl.tasks (save nl fs).2] }

/-- Go `handleInput(char, key)`, the `switch` with its cases in source order;
`typed` is the line that standard input delivers if the prompt is opened.  A
panic of a store operation ends the call before its `nl.save()`. -/
def handleInput (char : Char) (key : Key) (typed : String) (nl : NoLearn) (fs : FS) :
    Except Fault Handled :=
  if char = 'q' ∨ key = Key.KeyEsc then
    .ok { shouldQuit := true, nl := nl, fs := fs, trace := [] }
  else if char = 'e' ∨ key = Key.KeyArrowUp then
    .ok { shouldQuit := false, nl := moveCursorUp nl, fs := fs, trace := [] }
  else if char = 'd' ∨ key = Key.KeyArrowDown then
    .ok { shouldQuit := false, nl := moveCursorDown nl, fs := fs, trace := [] }
  else if char = 'f' then
    match cycleStatusForward nl with
    | .error e => .error e
    | .ok nl' => .ok (saveDiscard nl' fs [])
  else if char = 's' then
    match cycleStatusBackward nl with
    | .error e => .error e
    | .ok nl' => .ok (saveDiscard nl' fs [])
  else if char = 'n' then
    .ok (saveDiscard (promptForNewTask nl typed) fs (promptForNewTaskTrace typed))
  else if char = 'x' then
    match deleteCurrentTask nl with
    | .error e => .error e
    | .ok nl' => .ok (saveDiscard nl' fs [])
  else
    .ok { shouldQuit := false, nl := nl, fs := fs, trace := [] }

/-! ## The dispatch table of the spec

A second description of one controller step, written from the table of
section 4.2 of the spec, to compare `handleInput` with. -/

/-- The dispatch table of the spec, one constructor per row, in the order of
the table. -/
inductive Row where
  | quit
  | up
  | down
  | forward
  | backward
  | newTask
  | delete
deriving DecidableEq, Repr

/-- The trigger column of the spec's dispatch table. -/
def Row.triggered (row : Row) (char : Char) (key : Key) : Bool :=
  match row with
  | .quit => decide (char = 'q' ∨ key = Key.KeyEsc)
  | .up => decide (char = 'e' ∨ key = Key.KeyArrowUp)
  | .down => decide (char = 'd' ∨ key = Key.KeyArrowDown)
  | .forward => decide (char = 'f')
  | .backward => decide (char = 's')
  | .newTask => decide (char = 'n')
  | .delete => decide (char = 'x')

/-- The rows of the spec's dispatch table in the order in which they are
tried. -/
def specRows : List Row :=
  [.quit, .up, .down, .forward, .backward, .newTask, .delete]

/-- The first row of the spec's dispatch table that a key event matches. -/
def specFirstMatch (char : Char) (key : Key) : Option Row :=
  specRows.find? (fun row => row.triggered char key)

/-- The action column of the spec's dispatch table, as a store operation;
quitting does nothing to the store, and the new-task row adds the prompted
text. -/
def Row.specEffect (row : Row) (typed : String) (nl : NoLearn) : Except Fault NoLearn :=
  match row with
  | .quit => .ok nl
  | .up => .ok (moveCursorUp nl)
  | .down => .ok (moveCursorDown nl)
  | .forward => cycleStatusForward nl
  | .backward => cycleStatusBackward nl
  | .newTask => .ok (addTask nl (TrimSpace typed))
  | .delete => deleteCurrentTask nl

/-- The persist column of the spec's dispatch table. -/
def Row.specPersists (row : Row) : Bool :=
  match row with
  | .forward => true
  | .backward => true
  | .newTask => true
  | .delete => true
  | _ => false

/-! ## The main loop -/

/-- What one call of `keyboard.GetKey()` returns: a key event, together with
the line that standard input delivers if that key opens the prompt, or an
error. -/
inductive ReadResult where
  | event (char : Char) (key : Key) (typed : String)
  | error
deriving DecidableEq, Repr

/-- Whether a result of `keyboard.GetKey()` ends the main loop: an error, or
a key event for which `handleInput` returns true. -/
def ReadResult.stops (r : ReadResult) : Bool :=
  match r with
  | .error => true
  | .event char key _ => decide (char = 'q' ∨ key = Key.KeyEsc)

/-- The state in which the main loop is left through `break`: the store, the
file system, the trace of the loop, and the results of `keyboard.GetKey()`
that were never read. -/
structure LoopExit where
  nl : NoLearn
  fs : FS
  trace : List Event
  unread : List ReadResult

/-- The `for` loop of `main`, fed with the results that successive calls of
`keyboard.GetKey()` return: display, read a key, leave on a read error (after
reporting it), otherwise `handleInput`, leave if it returns true.  When the
results run out the loop is blocked in `keyboard.GetKey()` for ever, which is
`none`; a panic of `handleInput` ends the loop with that panic. -/
def mainLoop (reads : List ReadResult) (nl : NoLearn) (fs : FS) :
    Except Fault (Option LoopExit) :=
  match reads with
  | [] => .ok none
  | .error :: rest =>
    .ok (some { nl := nl, fs := fs, unread := rest,
                trace := display nl ++ [.printKeyboardError "Error reading key: %v\n"] })
  | .event char key typed :: rest =>
    match handleInput char key typed nl fs with
    | .error e => .error e
    | .ok h =>
      if h.shouldQuit then
        .ok (some { nl := h.nl, fs := h.fs, unread := rest, trace := display nl ++ h.trace })
      else
        match mainLoop rest h.nl h.fs with
        | .error e => .error e
        | .ok none => .ok none
        | .ok (some x) => .ok (some { x with trace := display nl ++ h.trace ++ x.trace })

/-- The state in which `main` returns: the store, the file system, the trace
of the whole run, and the results of `keyboard.GetKey()` never read. -/
structure Exit where
  nl : NoLearn
  fs : FS
  trace : List Event
  unread : List ReadResult

/-- The statements of `main` after the loop: the final `nl.save()` and the
report of its outcome, then the deferred calls, last registered first:
`showCursor()` and `keyboard.Close()`. -/
def shutdown (nl : NoLearn) (fs : FS) : FS × List Event :=
  ((save nl fs).1,
   [.save nl.tasks (save nl fs).2,
    match (save nl fs).2 with
    | some err => .printError "Error saving tasks: %v\n" err
    | none => .print "Tasks saved successfully.\n"]
   ++ showCursor ++ [.keyboardClose])

/-- The file name that `main` uses: `"tasks.json"`, replaced by `os.Args[1]`
when `len(os.Args) > 1`. -/
def argFilename (args : List String) : String :=
  if 1 < args.length then args.getD 1 "tasks.json" else "tasks.json"

/-- Go `main()`.  `args` is `os.Args`, `keyboardOpens` says whether the
`keyboard.Open()` of `main` succeeds, `reads` are the results of the calls of
`keyboard.GetKey()`.  A failed load or a failed `keyboard.Open()` is reported
and ends the run before the loop. -/
def main (args : List String) (keyboardOpens : Bool) (reads : List ReadResult) (fs : FS) :
    Except Fault (Option Exit) :=
  let loadResult := load (newNoLearn (argFilename args)) fs
  match loadResult.2 with
  | some err =>
    .ok (some { nl := loadResult.1, fs := fs, unread := reads,
                trace := [.printError "Error loading tasks: %v\n" err] })
  | none =>
    if keyboardOpens then
      match mainLoop reads loadResult.1 fs with
      | .error e => .error e
      | .ok none => .ok none
      | .ok (some x) =>
        .ok (some { nl := x.nl, fs := (shutdown x.nl x.fs).1, unread := x.unread,
                    trace := [.keyboardOpen] ++ hideCursor ++ x.trace ++ (shutdown x.nl x.fs).2 })
    else
      .ok (some { nl := loadResult.1, fs := fs, unread := reads,
                  trace := [.keyboardOpen, .printKeyboardError "Error opening keyboard: %v\n"] })

/-- The key events of `keys` handled one after the other by `handleInput`,
whatever it returns: the store and the file system after the last one. -/
def handleAll (keys : List ReadResult) (nl : NoLearn) (fs : FS) : Except Fault (NoLearn × FS) :=
  match keys with
  | [] => .ok (nl, fs)
  | .error :: rest => handleAll rest nl fs
  | .event char key typed :: rest =>
    match handleInput char key typed nl fs with
    | .error e => .error e
    | .ok h => handleAll rest h.nl h.fs

/-- The number of `nl.save()` calls in a trace. -/
def saveCount (trace : List Event) : Nat :=
  (trace.filter (fun e => match e with
    | .save _ _ => true
    | _ => false)).length

/-- The events that the action of a row of the spec's dispatch table produces
before any save: the prompt dialogue for the new-task row, nothing for the
others. -/
def Row.specTrace (row : Row) (typed : String) : List Event :=
  match row with
  | .newTask => promptForNewTaskTrace typed
  | _ => []

/-- One step of the controller as the spec's dispatch table describes it: the
first matching row decides; its store operation is applied; a row marked
`persist` then saves once; only the quit row asks for termination; a key
event that matches no row changes nothing. -/
def specHandle (char : Char) (key : Key) (typed : String) (nl : NoLearn) (fs : FS) :
    Except Fault Handled :=
  match specFirstMatch char key with
  | none => .ok { shouldQuit := false, nl := nl, fs := fs, trace := [] }
  | some row =>
    match row.specEffect typed nl with
    | .error e => .error e
    | .ok nl' =>
      if row.specPersists then
        .ok { shouldQuit := false, nl := nl', fs := (save nl' fs).1,
              trace := row.specTrace typed ++ [.save nl'.tasks (save nl' fs).2] }
      else
        .ok { shouldQuit := decide (row = .quit), nl := nl', fs := fs, trace := [] }

/-- A file system in which every `os.Create` fails. -/
def FS.createFails : FS :=
  { FS.empty with createError := fun _ => true }

/-! ## Auxiliary lemmas -/

theorem index_ok_of_inRange (xs : List Task) (i : Int) (h0 : 0 ≤ i) (h1 : i < xs.length) :
    ∃ t, xs[i.toNat]? = some t ∧ index xs i = .ok t := by
  have hlt : i.toNat < xs.length := by omega
  refine ⟨xs[i.toNat], List.getElem?_eq_getElem hlt, ?_⟩
  simp [index, List.getElem?_eq_getElem hlt, h0]

theorem index_error_of_outOfRange (xs : List Task) (i : Int) (h : i < 0 ∨ (xs.length : Int) ≤ i) :
    index xs i = .error (.indexOutOfRange i xs.length) := by
  unfold index
  cases hget : xs[i.toNat]? with
  | none => rfl
  | some t =>
    have hlt : i.toNat < xs.length := (List.getElem?_eq_some_iff.mp hget).1
    have hneg : ¬ (0 ≤ i) := by omega
    simp [hneg]

theorem inv_addTask (nl : NoLearn) (text : String) (h : Inv nl) : Inv (addTask nl text) := by
  unfold addTask
  split
  · exact h
  · constructor
    · intro _
      simp only [List.length_append, List.length_singleton]
      constructor <;> push_cast <;> omega
    · intro he
      simp at he

theorem deleteCurrentTask_ok (nl : NoLearn) (h0 : 0 ≤ nl.cursor)
    (h1 : nl.cursor < nl.tasks.length) :
    deleteCurrentTask nl = .ok
      { nl with
        tasks := nl.tasks.take nl.cursor.toNat ++ nl.tasks.drop (nl.cursor.toNat + 1)
        cursor := if nl.tasks.length = 1 then 0
                  else if nl.cursor = (nl.tasks.length : Int) - 1 then (nl.tasks.length : Int) - 2
                  else nl.cursor } := by
  have hlen : ¬ (nl.tasks.length = 0 ∨ nl.cursor < 0 ∨ nl.cursor ≥ nl.tasks.length) := by omega
  have hto : (nl.cursor + 1).toNat = nl.cursor.toNat + 1 := by omega
  have hA : sliceTo nl.tasks nl.cursor = .ok (nl.tasks.take nl.cursor.toNat) := by
    simp only [sliceTo]; rw [if_pos (by omega)]
  have hB : sliceFrom nl.tasks (nl.cursor + 1) = .ok (nl.tasks.drop (nl.cursor.toNat + 1)) := by
    simp only [sliceFrom]; rw [if_pos (by omega), hto]
  have hL : (nl.tasks.take nl.cursor.toNat ++ nl.tasks.drop (nl.cursor.toNat + 1)).length
      = nl.tasks.length - 1 := by
    simp only [List.length_append, List.length_take, List.length_drop]; omega
  unfold deleteCurrentTask
  rw [if_neg hlen, hA, hB]
  simp only [hL]
  by_cases hone : nl.tasks.length = 1
  · rw [if_pos (by omega), if_pos hone]
  · rw [if_neg (by omega), if_neg hone]
    by_cases hlast : nl.cursor = (nl.tasks.length : Int) - 1
    · rw [if_pos (by omega), if_pos hlast]
      have hc : ((nl.tasks.length - 1 : Nat) : Int) - 1 = (nl.tasks.length : Int) - 2 := by omega
      rw [hc]
    · rw [if_neg (by omega), if_neg hlast]

theorem deleteCurrentTask_guard (nl : NoLearn)
    (h : nl.tasks = [] ∨ nl.cursor < 0 ∨ nl.cursor ≥ nl.tasks.length) :
    deleteCurrentTask nl = .ok nl := by
  have hg : nl.tasks.length = 0 ∨ nl.cursor < 0 ∨ nl.cursor ≥ nl.tasks.length := by
    rcases h with h | h | h
    · left; simp [h]
    · right; left; exact h
    · right; right; exact h
  unfold deleteCurrentTask
  rw [if_pos hg]

theorem inv_deleteCurrentTask (nl : NoLearn) (h : Inv nl) :
    ∃ nl', deleteCurrentTask nl = .ok nl' ∧ Inv nl' := by
  by_cases he : nl.tasks = []
  · exact ⟨nl, deleteCurrentTask_guard nl (Or.inl he), h⟩
  · obtain ⟨h0, h1⟩ := h.1 he
    refine ⟨_, deleteCurrentTask_ok nl h0 h1, ?_⟩
    have hL : (nl.tasks.take nl.cursor.toNat ++ nl.tasks.drop (nl.cursor.toNat + 1)).length
        = nl.tasks.length - 1 := by
      simp only [List.length_append, List.length_take, List.length_drop]; omega
    constructor
    · intro hne
      have hpos : (nl.tasks.take nl.cursor.toNat ++ nl.tasks.drop (nl.cursor.toNat + 1)).length ≠ 0 :=
        fun h0 => hne (List.length_eq_zero.mp h0)
      simp only [hL]
      split_ifs <;> constructor <;> omega
    · intro hnil
      have hz := congrArg List.length hnil
      simp only [hL, List.length_nil] at hz
      simp only
      rw [if_pos (by omega)]

theorem inv_moveCursorUp (nl : NoLearn) (h : Inv nl) : Inv (moveCursorUp nl) := by
  unfold moveCursorUp
  split
  · obtain ⟨ha, hb⟩ := h
    constructor
    · intro hne
      have := ha hne
      constructor <;> simp only <;> omega
    · intro he
      have := hb he
      simp only at *
      omega
  · exact h

theorem inv_moveCursorDown (nl : NoLearn) (h : Inv nl) : Inv (moveCursorDown nl) := by
  unfold moveCursorDown
  split
  · rename_i hlt
    obtain ⟨ha, hb⟩ := h
    constructor
    · intro hne
      have := ha hne
      constructor <;> simp only <;> omega
    · intro he
      simp only at he
      simp [he] at hlt
      have := hb he
      omega
  · exact h

theorem cycleStatusForward_ok (nl : NoLearn) (h0 : 0 ≤ nl.cursor)
    (h1 : nl.cursor < nl.tasks.length) :
    ∃ t, nl.tasks[nl.cursor.toNat]? = some t ∧
      cycleStatusForward nl = .ok { nl with
        tasks := nl.tasks.set nl.cursor.toNat { t with Status := forwardStatus t.Status } } := by
  obtain ⟨t, hget, hidx⟩ := index_ok_of_inRange nl.tasks nl.cursor h0 h1
  refine ⟨t, hget, ?_⟩
  unfold cycleStatusForward
  rw [if_neg (by omega), hidx]

theorem cycleStatusBackward_ok (nl : NoLearn) (h0 : 0 ≤ nl.cursor)
    (h1 : nl.cursor < nl.tasks.length) :
    ∃ t, nl.tasks[nl.cursor.toNat]? = some t ∧
      cycleStatusBackward nl = .ok { nl with
        tasks := nl.tasks.set nl.cursor.toNat { t with Status := backwardStatus t.Status } } := by
  obtain ⟨t, hget, hidx⟩ := index_ok_of_inRange nl.tasks nl.cursor h0 h1
  refine ⟨t, hget, ?_⟩
  unfold cycleStatusBackward
  rw [if_neg (by omega), hidx]

theorem inv_of_same_length (nl nl' : NoLearn) (h : Inv nl) (hc : nl'.cursor = nl.cursor)
    (hl : nl'.tasks.length = nl.tasks.length) : Inv nl' := by
  obtain ⟨ha, hb⟩ := h
  constructor
  · intro hne
    have hne' : nl.tasks ≠ [] := by
      intro he; apply hne; apply List.length_eq_zero.mp; rw [hl, he]; rfl
    have := ha hne'
    omega
  · intro he
    have he' : nl.tasks = [] := by
      apply List.length_eq_zero.mp; rw [← hl, he]; rfl
    rw [hc]; exact hb he'

theorem inv_cycleStatusForward (nl : NoLearn) (h : Inv nl) :
    ∃ nl', cycleStatusForward nl = .ok nl' ∧ Inv nl' := by
  by_cases he : nl.tasks = []
  · refine ⟨nl, ?_, h⟩
    unfold cycleStatusForward
    rw [if_pos (by simp [he])]
  · obtain ⟨h0, h1⟩ := h.1 he
    obtain ⟨t, _, hok⟩ := cycleStatusForward_ok nl h0 h1
    exact ⟨_, hok, inv_of_same_length nl _ h rfl (by simp)⟩

theorem inv_cycleStatusBackward (nl : NoLearn) (h : Inv nl) :
    ∃ nl', cycleStatusBackward nl = .ok nl' ∧ Inv nl' := by
  by_cases he : nl.tasks = []
  · refine ⟨nl, ?_, h⟩
    unfold cycleStatusBackward
    rw [if_pos (by simp [he])]
  · obtain ⟨h0, h1⟩ := h.1 he
    obtain ⟨t, _, hok⟩ := cycleStatusBackward_ok nl h0 h1
    exact ⟨_, hok, inv_of_same_length nl _ h rfl (by simp)⟩

theorem inv_apply (op : Op) (nl : NoLearn) (h : Inv nl) :
    ∃ nl', op.apply nl = .ok nl' ∧ Inv nl' := by
  cases op with
  | addTask text => exact ⟨_, rfl, inv_addTask nl text h⟩
  | deleteCurrentTask => exact inv_deleteCurrentTask nl h
  | moveCursorUp => exact ⟨_, rfl, inv_moveCursorUp nl h⟩
  | moveCursorDown => exact ⟨_, rfl, inv_moveCursorDown nl h⟩
  | cycleStatusForward => exact inv_cycleStatusForward nl h
  | cycleStatusBackward => exact inv_cycleStatusBackward nl h

theorem inv_runOps (ops : List Op) (nl : NoLearn) (h : Inv nl) :
    ∃ nl', runOps ops nl = .ok nl' ∧ Inv nl' := by
  induction ops generalizing nl with
  | nil => exact ⟨nl, rfl, h⟩
  | cons op rest ih =>
    obtain ⟨mid, hmid, hinv⟩ := inv_apply op nl h
    obtain ⟨fin, hfin, hfinv⟩ := ih mid hinv
    refine ⟨fin, ?_, hfinv⟩
    simp only [runOps, hmid, hfin]

theorem inv_loaded (filename : String) (tasks : List Task) : Inv (loaded filename tasks) := by
  constructor
  · intro hne
    have hpos : 0 < tasks.length := List.length_pos.mpr hne
    constructor
    · exact le_refl _
    · show (0 : Int) < (tasks.length : Int)
      omega
  · intro _
    rfl

/-! ## The session invariant -/

/-- C1: from the store of `newNoLearn` (which is the loaded store with the
empty list), or from that store with any task list loaded into it and the
cursor still 0, every finite sequence of `addTask`, `deleteCurrentTask`,
`moveCursorUp`, `moveCursorDown`, `cycleStatusForward` and
`cycleStatusBackward` calls runs without a panic and ends in a state where
the cursor is a valid index of a non-empty list and is 0 for an empty list. -/
theorem session_invariant_reachable (filename : String) (tasks : List Task) (ops : List Op) :
    newNoLearn filename = loaded filename [] ∧
    ∃ nl, runOps ops (loaded filename tasks) = .ok nl ∧
      (nl.tasks ≠ [] → 0 ≤ nl.cursor ∧ nl.cursor < nl.tasks.length) ∧
      (nl.tasks = [] → nl.cursor = 0) :=
  ⟨rfl, inv_runOps ops (loaded filename tasks) (inv_loaded filename tasks)⟩

/-! ## addTask -/

/-- C2: for a non-empty text, `addTask` leaves the old list followed by one
new task with that text and status `Todo`: the length grows by one, every
earlier position keeps its task, and the cursor is the new last index. -/
theorem addTask_appends_todo (nl : NoLearn) (text : String) (h : text ≠ "") :
    (addTask nl text).tasks = nl.tasks ++ [{ Text := text, Status := Todo }] ∧
    (addTask nl text).tasks.length = nl.tasks.length + 1 ∧
    (∀ i, i < nl.tasks.length → (addTask nl text).tasks[i]? = nl.tasks[i]?) ∧
    (addTask nl text).tasks[nl.tasks.length]? = some { Text := text, Status := Todo } ∧
    (addTask nl text).cursor = ((addTask nl text).tasks.length : Int) - 1 ∧
    (addTask nl text).cursor = (nl.tasks.length : Int) := by
  have hadd : addTask nl text =
      { nl with tasks := nl.tasks ++ [{ Text := text, Status := Todo }]
                cursor := ((nl.tasks ++ [({ Text := text, Status := Todo } : Task)]).length : Int) - 1 } := by
    unfold addTask
    rw [if_neg h]
  rw [hadd]
  refine ⟨rfl, by simp, ?_, by simp, rfl, ?_⟩
  · intro i hi
    exact List.getElem?_append_left hi
  · simp

/-- Witness of C2: adding "Learn Go" to a store holding one task. -/
theorem addTask_appends_todo_witness :
    ("Learn Go" : String) ≠ "" ∧
    (addTask ⟨[⟨"a", Done⟩], 0, "tasks.json"⟩ "Learn Go").tasks
      = [⟨"a", Done⟩] ++ [{ Text := "Learn Go", Status := Todo }] ∧
    (addTask ⟨[⟨"a", Done⟩], 0, "tasks.json"⟩ "Learn Go").cursor = 1 :=
  ⟨by decide,
   (addTask_appends_todo ⟨[⟨"a", Done⟩], 0, "tasks.json"⟩ "Learn Go" (by decide)).1,
   (addTask_appends_todo ⟨[⟨"a", Done⟩], 0, "tasks.json"⟩ "Learn Go" (by decide)).2.2.2.2.2⟩

/-- C3, as stated, fails: the text of one blank is empty after trimming, yet
`addTask` appends a task holding it and moves the cursor. -/
theorem addTask_whitespace_not_noop :
    TrimSpace " " = "" ∧
    addTask (newNoLearn "tasks.json") " "
      = { tasks := [{ Text := " ", Status := Todo }], cursor := 0, filename := "tasks.json" } ∧
    (addTask (newNoLearn "tasks.json") " ").tasks ≠ (newNoLearn "tasks.json").tasks ∧
    (addTask ⟨[⟨"a", Todo⟩, ⟨"b", Todo⟩], 0, "tasks.json"⟩ " ").cursor
      ≠ (⟨[⟨"a", Todo⟩, ⟨"b", Todo⟩], 0, "tasks.json"⟩ : NoLearn).cursor := by
  decide

/-- C3, amended: `addTask` is a no-op on the empty text, and the prompt, which
trims the text it read before calling `addTask`, is a no-op on every text
that is empty after trimming surrounding whitespace. -/
theorem addTask_empty_noop_prompt_trims (nl : NoLearn) (text : String)
    (h : TrimSpace text = "") :
    addTask nl "" = nl ∧ promptForNewTask nl text = nl := by
  constructor
  · simp [addTask]
  · simp [promptForNewTask, h, addTask]

/-- Witness of C3 amended: a line of blanks, a tab and a line end. -/
theorem addTask_empty_noop_prompt_trims_witness :
    TrimSpace "  \t\r\n" = "" ∧
    addTask ⟨[⟨"a", Seen⟩], 0, "tasks.json"⟩ "" = ⟨[⟨"a", Seen⟩], 0, "tasks.json"⟩ ∧
    promptForNewTask ⟨[⟨"a", Seen⟩], 0, "tasks.json"⟩ "  \t\r\n" = ⟨[⟨"a", Seen⟩], 0, "tasks.json"⟩ :=
  ⟨by decide, addTask_empty_noop_prompt_trims ⟨[⟨"a", Seen⟩], 0, "tasks.json"⟩ "  \t\r\n" (by decide)⟩

/-! ## deleteCurrentTask -/

/-- C4: with `n` tasks and cursor `c`, `0 <= c < n`, `deleteCurrentTask`
returns normally with the list `tasks[0..c) ++ tasks[c+1..n)` of length
`n - 1`; the cursor becomes 0 if `n = 1`, `n - 2` if `c = n - 1` and `n > 1`,
and stays `c` otherwise, where it then points at the task formerly at `c + 1`.
With two tasks and cursor 0 the second task is left alone at index 0. -/
theorem deleteCurrentTask_removes_current (nl : NoLearn) (h0 : 0 ≤ nl.cursor)
    (h1 : nl.cursor < nl.tasks.length) :
    ∃ nl', deleteCurrentTask nl = .ok nl' ∧
      nl'.tasks = nl.tasks.take nl.cursor.toNat ++ nl.tasks.drop (nl.cursor.toNat + 1) ∧
      nl'.tasks = nl.tasks.eraseIdx nl.cursor.toNat ∧
      nl'.tasks.length = nl.tasks.length - 1 ∧
      (nl.tasks.length = 1 → nl'.cursor = 0) ∧
      (nl.cursor = (nl.tasks.length : Int) - 1 → 1 < nl.tasks.length →
        nl'.cursor = (nl.tasks.length : Int) - 2) ∧
      (nl.cursor < (nl.tasks.length : Int) - 1 →
        nl'.cursor = nl.cursor ∧ nl'.tasks[nl'.cursor.toNat]? = nl.tasks[nl.cursor.toNat + 1]?) ∧
      (∀ a b, nl.tasks = [a, b] → nl.cursor = 0 →
        nl'.tasks = [b] ∧ nl'.tasks[0]? = some b ∧ nl'.tasks.length = 1 ∧ nl'.cursor = 0) := by
  have hlt : nl.cursor.toNat < nl.tasks.length := by omega
  have hL : (nl.tasks.take nl.cursor.toNat ++ nl.tasks.drop (nl.cursor.toNat + 1)).length
      = nl.tasks.length - 1 := by
    simp only [List.length_append, List.length_take, List.length_drop]; omega
  refine ⟨_, deleteCurrentTask_ok nl h0 h1, rfl, ?_, hL, ?_, ?_, ?_, ?_⟩
  · exact (List.eraseIdx_eq_take_drop_succ nl.tasks nl.cursor.toNat).symm
  · intro hone
    simp only
    rw [if_pos hone]
  · intro hlast hgt
    simp only
    rw [if_neg (by omega), if_pos hlast]
  · intro hmid
    simp only
    rw [if_neg (by omega), if_neg (by omega)]
    refine ⟨rfl, ?_⟩
    rw [List.getElem?_append_right (by simp)]
    simp only [List.length_take, List.getElem?_drop]
    congr 1
    omega
  · intro a b hab hc
    simp only
    rw [hab, hc]
    simp

/-- Witness of C4: three tasks, cursor on the middle one. -/
theorem deleteCurrentTask_removes_current_witness :
    ∃ nl', deleteCurrentTask ⟨[⟨"a", Todo⟩, ⟨"b", Seen⟩, ⟨"c", Done⟩], 1, "tasks.json"⟩ = .ok nl' ∧
      nl'.tasks = [⟨"a", Todo⟩, ⟨"c", Done⟩] ∧ nl'.cursor = 1 := by
  obtain ⟨nl', hok, htasks, _, _, _, _, hmid, _⟩ :=
    deleteCurrentTask_removes_current ⟨[⟨"a", Todo⟩, ⟨"b", Seen⟩, ⟨"c", Done⟩], 1, "tasks.json"⟩
      (by decide) (by decide)
  exact ⟨nl', hok, htasks, (hmid (by decide)).1⟩

/-- C5: when the list is empty or the cursor is out of bounds
(`cursor < 0` or `cursor >= len(tasks)`), `deleteCurrentTask` returns normally
and leaves the task list and the cursor as they were. -/
theorem deleteCurrentTask_noop_outOfBounds (nl : NoLearn)
    (h : nl.tasks = [] ∨ nl.cursor < 0 ∨ nl.cursor ≥ nl.tasks.length) :
    deleteCurrentTask nl = .ok nl ∧
    ∀ nl', deleteCurrentTask nl = .ok nl' → nl'.tasks = nl.tasks ∧ nl'.cursor = nl.cursor := by
  have hok := deleteCurrentTask_guard nl h
  refine ⟨hok, ?_⟩
  intro nl' hnl'
  rw [hok] at hnl'
  cases hnl'
  exact ⟨rfl, rfl⟩

/-- Witness of C5: one task, cursor past the end. -/
theorem deleteCurrentTask_noop_outOfBounds_witness :
    deleteCurrentTask ⟨[⟨"a", Todo⟩], 1, "tasks.json"⟩ = .ok ⟨[⟨"a", Todo⟩], 1, "tasks.json"⟩ :=
  (deleteCurrentTask_noop_outOfBounds ⟨[⟨"a", Todo⟩], 1, "tasks.json"⟩
    (Or.inr (Or.inr (by decide)))).1

/-! ## Cursor movement -/

/-- C6: in a state satisfying the session invariant, `moveCursorUp` sets the
cursor to `max(cursor-1, 0)` and `moveCursorDown`, on a non-empty list, to
`min(cursor+1, len(tasks)-1)`; both leave the task list unchanged; up at
index 0 and down at the last index change nothing; on an empty list both are
no-ops and the cursor stays 0. -/
theorem moveCursor_clamped (nl : NoLearn)
    (h : (nl.tasks ≠ [] → 0 ≤ nl.cursor ∧ nl.cursor < nl.tasks.length) ∧
         (nl.tasks = [] → nl.cursor = 0)) :
    (moveCursorUp nl).cursor = max (nl.cursor - 1) 0 ∧
    (moveCursorUp nl).tasks = nl.tasks ∧
    (nl.tasks ≠ [] →
      (moveCursorDown nl).cursor = min (nl.cursor + 1) ((nl.tasks.length : Int) - 1)) ∧
    (moveCursorDown nl).tasks = nl.tasks ∧
    (nl.cursor = 0 → moveCursorUp nl = nl) ∧
    (nl.cursor = (nl.tasks.length : Int) - 1 → moveCursorDown nl = nl) ∧
    (nl.tasks = [] → moveCursorUp nl = nl ∧ moveCursorDown nl = nl ∧ nl.cursor = 0) := by
  obtain ⟨ha, hb⟩ := h
  have hcur : 0 ≤ nl.cursor := by
    by_cases he : nl.tasks = []
    · rw [hb he]
    · exact (ha he).1
  refine ⟨?_, ?_, ?_, ?_, ?_, ?_, ?_⟩
  · unfold moveCursorUp
    split
    · simp only; omega
    · omega
  · unfold moveCursorUp
    split <;> rfl
  · intro hne
    have := ha hne
    unfold moveCursorDown
    split
    · simp only; omega
    · omega
  · unfold moveCursorDown
    split <;> rfl
  · intro hz
    unfold moveCursorUp
    rw [if_neg (by omega)]
  · intro hlast
    unfold moveCursorDown
    rw [if_neg (by omega)]
  · intro he
    have hc := hb he
    refine ⟨?_, ?_, hc⟩
    · unfold moveCursorUp
      rw [if_neg (by omega)]
    · unfold moveCursorDown
      rw [if_neg (by simp [he, hc])]

/-- Witness of C6: three tasks, cursor on the last one. -/
theorem moveCursor_clamped_witness :
    (moveCursorUp ⟨[⟨"a", Todo⟩, ⟨"b", Seen⟩, ⟨"c", Done⟩], 2, "tasks.json"⟩).cursor
      = max ((2 : Int) - 1) 0 ∧
    moveCursorDown ⟨[⟨"a", Todo⟩, ⟨"b", Seen⟩, ⟨"c", Done⟩], 2, "tasks.json"⟩
      = ⟨[⟨"a", Todo⟩, ⟨"b", Seen⟩, ⟨"c", Done⟩], 2, "tasks.json"⟩ :=
  ⟨(moveCursor_clamped ⟨[⟨"a", Todo⟩, ⟨"b", Seen⟩, ⟨"c", Done⟩], 2, "tasks.json"⟩
      ⟨fun _ => by decide, fun hnil => by simp at hnil⟩).1,
   (moveCursor_clamped ⟨[⟨"a", Todo⟩, ⟨"b", Seen⟩, ⟨"c", Done⟩], 2, "tasks.json"⟩
      ⟨fun _ => by decide, fun hnil => by simp at hnil⟩).2.2.2.2.2.1 (by decide)⟩

/-! ## Status cycling -/

/-- C7: on a non-empty list with the cursor `c` in range,
`cycleStatusForward` returns normally and changes only the status of the task
at `c`: `Todo` to `Seen`, `Seen` to `Done`, `Done` stays `Done`; that task
keeps its text, every other task, the length and the cursor are unchanged.
On an empty list it is a no-op. -/
theorem cycleStatusForward_spec (nl : NoLearn) :
    (nl.tasks = [] → cycleStatusForward nl = .ok nl) ∧
    (nl.tasks ≠ [] → 0 ≤ nl.cursor → nl.cursor < nl.tasks.length →
      ∃ nl' t t', cycleStatusForward nl = .ok nl' ∧
        nl.tasks[nl.cursor.toNat]? = some t ∧ nl'.tasks[nl.cursor.toNat]? = some t' ∧
        t'.Text = t.Text ∧
        (t.Status = Todo → t'.Status = Seen) ∧
        (t.Status = Seen → t'.Status = Done) ∧
        (t.Status = Done → t'.Status = Done) ∧
        (∀ i, i ≠ nl.cursor.toNat → nl'.tasks[i]? = nl.tasks[i]?) ∧
        nl'.tasks.length = nl.tasks.length ∧
        nl'.cursor = nl.cursor ∧ nl'.filename = nl.filename) := by
  constructor
  · intro he
    unfold cycleStatusForward
    rw [if_pos (by simp [he])]
  · intro _ h0 h1
    obtain ⟨t, hget, hok⟩ := cycleStatusForward_ok nl h0 h1
    have hlt : nl.cursor.toNat < nl.tasks.length := by omega
    refine ⟨_, t, { t with Status := forwardStatus t.Status }, hok, hget, ?_, rfl,
      ?_, ?_, ?_, ?_, by simp, rfl, rfl⟩
    · simp [List.getElem?_set_self hlt]
    · intro hs; simp only [forwardStatus, hs]; decide
    · intro hs; simp only [forwardStatus, hs]; decide
    · intro hs; simp only [forwardStatus, hs]; decide
    · intro i hi
      simp only
      rw [List.getElem?_set_ne (Ne.symm hi)]

/-- Witness of C7: the empty store, and two tasks with the cursor on a `Seen`
task. -/
theorem cycleStatusForward_spec_witness :
    cycleStatusForward (newNoLearn "tasks.json") = .ok (newNoLearn "tasks.json") ∧
    ∃ nl' t t', cycleStatusForward ⟨[⟨"a", Todo⟩, ⟨"b", Seen⟩], 1, "tasks.json"⟩ = .ok nl' ∧
      ([⟨"a", Todo⟩, ⟨"b", Seen⟩] : List Task)[1]? = some t ∧ nl'.tasks[1]? = some t' ∧
      t'.Text = t.Text ∧ nl'.cursor = 1 := by
  refine ⟨(cycleStatusForward_spec (newNoLearn "tasks.json")).1 rfl, ?_⟩
  obtain ⟨nl', t, t', hok, ht, ht', htext, _, _, _, _, _, hcur, _⟩ :=
    (cycleStatusForward_spec ⟨[⟨"a", Todo⟩, ⟨"b", Seen⟩], 1, "tasks.json"⟩).2
      (by decide) (by decide) (by decide)
  exact ⟨nl', t, t', hok, ht, ht', htext, hcur⟩

/-- C8: on a non-empty list with the cursor `c` in range,
`cycleStatusBackward` returns normally and changes only the status of the
task at `c`: `Done` to `Seen`, `Seen` to `Todo`, `Todo` stays `Todo`; that
task keeps its text, every other task, the length and the cursor are
unchanged.  On an empty list it is a no-op. -/
theorem cycleStatusBackward_spec (nl : NoLearn) :
    (nl.tasks = [] → cycleStatusBackward nl = .ok nl) ∧
    (nl.tasks ≠ [] → 0 ≤ nl.cursor → nl.cursor < nl.tasks.length →
      ∃ nl' t t', cycleStatusBackward nl = .ok nl' ∧
        nl.tasks[nl.cursor.toNat]? = some t ∧ nl'.tasks[nl.cursor.toNat]? = some t' ∧
        t'.Text = t.Text ∧
        (t.Status = Done → t'.Status = Seen) ∧
        (t.Status = Seen → t'.Status = Todo) ∧
        (t.Status = Todo → t'.Status = Todo) ∧
        (∀ i, i ≠ nl.cursor.toNat → nl'.tasks[i]? = nl.tasks[i]?) ∧
        nl'.tasks.length = nl.tasks.length ∧
        nl'.cursor = nl.cursor ∧ nl'.filename = nl.filename) := by
  constructor
  · intro he
    unfold cycleStatusBackward
    rw [if_pos (by simp [he])]
  · intro _ h0 h1
    obtain ⟨t, hget, hok⟩ := cycleStatusBackward_ok nl h0 h1
    have hlt : nl.cursor.toNat < nl.tasks.length := by omega
    refine ⟨_, t, { t with Status := backwardStatus t.Status }, hok, hget, ?_, rfl,
      ?_, ?_, ?_, ?_, by simp, rfl, rfl⟩
    · simp [List.getElem?_set_self hlt]
    · intro hs; simp only [backwardStatus, hs]; decide
    · intro hs; simp only [backwardStatus, hs]; decide
    · intro hs; simp only [backwardStatus, hs]; decide
    · intro i hi
      simp only
      rw [List.getElem?_set_ne (Ne.symm hi)]

/-- Witness of C8: the empty store, and two tasks with the cursor on a `Done`
task. -/
theorem cycleStatusBackward_spec_witness :
    cycleStatusBackward (newNoLearn "tasks.json") = .ok (newNoLearn "tasks.json") ∧
    ∃ nl' t t', cycleStatusBackward ⟨[⟨"a", Done⟩, ⟨"b", Seen⟩], 0, "tasks.json"⟩ = .ok nl' ∧
      ([⟨"a", Done⟩, ⟨"b", Seen⟩] : List Task)[0]? = some t ∧ nl'.tasks[0]? = some t' ∧
      t'.Text = t.Text ∧ nl'.cursor = 0 := by
  refine ⟨(cycleStatusBackward_spec (newNoLearn "tasks.json")).1 rfl, ?_⟩
  obtain ⟨nl', t, t', hok, ht, ht', htext, _, _, _, _, _, hcur, _⟩ :=
    (cycleStatusBackward_spec ⟨[⟨"a", Done⟩, ⟨"b", Seen⟩], 0, "tasks.json"⟩).2
      (by decide) (by decide) (by decide)
  exact ⟨nl', t, t', hok, ht, ht', htext, hcur⟩

/-- C9, as stated, fails: with one task and the cursor at 1, past the end, or
at -1, `cycleStatusForward` and `cycleStatusBackward` both panic on the index
expression `tasks[cursor]`; `deleteCurrentTask`, which tests the cursor
against the bounds first, returns normally and leaves the store unchanged. -/
theorem cycleStatus_outOfRange_panics :
    cycleStatusForward ⟨[⟨"a", Todo⟩], 1, "tasks.json"⟩ = .error (.indexOutOfRange 1 1) ∧
    cycleStatusBackward ⟨[⟨"a", Todo⟩], 1, "tasks.json"⟩ = .error (.indexOutOfRange 1 1) ∧
    cycleStatusForward ⟨[⟨"a", Todo⟩], -1, "tasks.json"⟩ = .error (.indexOutOfRange (-1) 1) ∧
    cycleStatusBackward ⟨[⟨"a", Todo⟩], -1, "tasks.json"⟩ = .error (.indexOutOfRange (-1) 1) ∧
    deleteCurrentTask ⟨[⟨"a", Todo⟩], 1, "tasks.json"⟩ = .ok ⟨[⟨"a", Todo⟩], 1, "tasks.json"⟩ := by
  decide

/-- C9, amended: `cycleStatusForward` and `cycleStatusBackward` return
normally in every state whose list is empty or whose cursor is in range, so in
every state satisfying the session invariant and in every state that a
sequence of store operations reaches from a fresh or loaded store; on an empty
list they change nothing.  They have no guard for an out-of-range cursor on a
non-empty list: there the index expression `tasks[cursor]` faults. -/
theorem cycleStatus_returns_unless_outOfRange (nl : NoLearn) :
    ((nl.tasks = [] ∨ (0 ≤ nl.cursor ∧ nl.cursor < nl.tasks.length)) →
      ∃ a b, cycleStatusForward nl = .ok a ∧ cycleStatusBackward nl = .ok b) ∧
    (nl.tasks = [] → cycleStatusForward nl = .ok nl ∧ cycleStatusBackward nl = .ok nl) ∧
    (((nl.tasks ≠ [] → 0 ≤ nl.cursor ∧ nl.cursor < nl.tasks.length) ∧
        (nl.tasks = [] → nl.cursor = 0)) →
      ∃ a b, cycleStatusForward nl = .ok a ∧ cycleStatusBackward nl = .ok b) ∧
    (∀ (filename : String) (tasks : List Task) (ops : List Op),
      ∃ s, runOps ops (loaded filename tasks) = .ok s ∧
        ∃ a b, cycleStatusForward s = .ok a ∧ cycleStatusBackward s = .ok b) ∧
    (nl.tasks ≠ [] → (nl.cursor < 0 ∨ nl.cursor ≥ nl.tasks.length) →
      cycleStatusForward nl = .error (.indexOutOfRange nl.cursor nl.tasks.length) ∧
      cycleStatusBackward nl = .error (.indexOutOfRange nl.cursor nl.tasks.length)) := by
  have hempty : nl.tasks = [] →
      cycleStatusForward nl = .ok nl ∧ cycleStatusBackward nl = .ok nl := by
    intro he
    constructor
    · unfold cycleStatusForward
      rw [if_pos (by simp [he])]
    · unfold cycleStatusBackward
      rw [if_pos (by simp [he])]
  have hin : ∀ s : NoLearn, (s.tasks ≠ [] → 0 ≤ s.cursor ∧ s.cursor < s.tasks.length) ∧
      (s.tasks = [] → s.cursor = 0) →
      ∃ a b, cycleStatusForward s = .ok a ∧ cycleStatusBackward s = .ok b := by
    intro s hinv
    obtain ⟨a, ha, _⟩ := inv_cycleStatusForward s hinv
    obtain ⟨b, hb, _⟩ := inv_cycleStatusBackward s hinv
    exact ⟨a, b, ha, hb⟩
  refine ⟨?_, hempty, hin nl, ?_, ?_⟩
  · rintro (he | ⟨h0, h1⟩)
    · exact ⟨nl, nl, hempty he⟩
    · obtain ⟨_, _, hf⟩ := cycleStatusForward_ok nl h0 h1
      obtain ⟨_, _, hb⟩ := cycleStatusBackward_ok nl h0 h1
      exact ⟨_, _, hf, hb⟩
  · intro filename tasks ops
    obtain ⟨s, hs, hinv⟩ := inv_runOps ops (loaded filename tasks) (inv_loaded filename tasks)
    exact ⟨s, hs, hin s hinv⟩
  · intro hne hout
    have hlen : ¬ nl.tasks.length = 0 := fun h => hne (List.length_eq_zero.mp h)
    have hidx := index_error_of_outOfRange nl.tasks nl.cursor
      (by rcases hout with h | h
          · exact Or.inl h
          · exact Or.inr h)
    constructor
    · unfold cycleStatusForward
      rw [if_neg hlen, hidx]
    · unfold cycleStatusBackward
      rw [if_neg hlen, hidx]

/-- Witness of C9 amended: two tasks with the cursor on the second, and the
empty store. -/
theorem cycleStatus_returns_unless_outOfRange_witness :
    (∃ a b, cycleStatusForward ⟨[⟨"a", Todo⟩, ⟨"b", Seen⟩], 1, "tasks.json"⟩ = .ok a ∧
      cycleStatusBackward ⟨[⟨"a", Todo⟩, ⟨"b", Seen⟩], 1, "tasks.json"⟩ = .ok b) ∧
    cycleStatusForward (newNoLearn "tasks.json") = .ok (newNoLearn "tasks.json") :=
  ⟨(cycleStatus_returns_unless_outOfRange ⟨[⟨"a", Todo⟩, ⟨"b", Seen⟩], 1, "tasks.json"⟩).1
      (Or.inr (by decide)),
   ((cycleStatus_returns_unless_outOfRange (newNoLearn "tasks.json")).2.1 rfl).1⟩

/-! ## Save and load -/

theorem decodeTask_encodeTask (target t : Task) :
    decodeTask target (encodeTask t) = (t, false) := by
  have htext : fieldOf "text" = some Field.text := by decide
  have hstatus : fieldOf "status" = some Field.status := by decide
  simp [decodeTask, encodeTask, decodeMember, htext, hstatus]

theorem decodeElems_nil (elems : List JSON) :
    decodeElems [] elems = elems.map (decodeTask Task.zero) := by
  induction elems with
  | nil => rfl
  | cons e es ih => simp [decodeElems, ih]

theorem decodeElems_encodeTask (cur tasks : List Task) :
    decodeElems cur (tasks.map encodeTask) = tasks.map (fun t => (t, false)) := by
  induction tasks generalizing cur with
  | nil => rfl
  | cons t rest ih =>
    cases cur with
    | nil => simp [decodeElems, decodeTask_encodeTask, ih]
    | cons c cs => simp [decodeElems, decodeTask_encodeTask, ih]

theorem decodeTasks_encodeTasks (cur tasks : List Task) :
    decodeTasks cur (encodeTasks tasks) = (tasks, none) := by
  simp only [decodeTasks, encodeTasks, decodeElems_encodeTask, List.map_map]
  refine Prod.ext ?_ ?_
  · simp only [Function.comp_def]
    exact List.map_id tasks
  · simp [List.any_map, Function.comp_def]

theorem toValidUTF8_ofString (s : String) : (RawString.ofString s).toValidUTF8 = s := by
  cases s with
  | mk data =>
    simp [RawString.ofString, RawString.toValidUTF8, List.map_map, Function.comp_def]

theorem ofString_toValidUTF8_iff (s : RawString) :
    RawString.ofString s.toValidUTF8 = s ↔ s.valid = true := by
  induction s with
  | nil => simp [RawString.ofString, RawString.toValidUTF8, RawString.valid]
  | cons c rest ih =>
    have ih' : List.map Code.rune
        (List.map (fun c => match c with
          | Code.rune r => r
          | Code.invalid _ => Char.ofNat 0xFFFD) rest) = rest ↔ RawString.valid rest = true := by
      simpa [RawString.ofString, RawString.toValidUTF8] using ih
    cases c with
    | rune r =>
      simp only [RawString.ofString, RawString.toValidUTF8, RawString.valid, List.map_cons,
        List.all_cons, Bool.true_and, List.cons.injEq, true_and]
      simpa [RawString.valid] using ih'
    | invalid b =>
      simp [RawString.ofString, RawString.toValidUTF8, RawString.valid]

/-- The task that comes back when a task has been written and read again:
its text coerced to valid UTF-8. -/
theorem decodeTask_encodeRawTask (target : Task) (t : RawTask) :
    decodeTask target (encodeRawTask t)
      = ({ Text := t.Text.toValidUTF8, Status := t.Status }, false) :=
  decodeTask_encodeTask target { Text := t.Text.toValidUTF8, Status := t.Status }

theorem decodeTasks_encodeRawTasks (tasks : List RawTask) :
    decodeTasks [] (.array (tasks.map encodeRawTask))
      = (tasks.map (fun t => ({ Text := t.Text.toValidUTF8, Status := t.Status } : Task)), none) := by
  have h := decodeTasks_encodeTasks []
    (tasks.map (fun t => ({ Text := t.Text.toValidUTF8, Status := t.Status } : Task)))
  simp only [encodeTasks, List.map_map] at h
  exact h

theorem saveRaw_success_files (nl : RawNoLearn) (fs : FS) (hsave : (saveRaw nl fs).2 = none) :
    (saveRaw nl fs).1.files nl.filename = some (.json (encodeRawTasks nl.tasks)) ∧
    (saveRaw nl fs).1.openError = fs.openError := by
  unfold saveRaw at hsave ⊢
  by_cases hc : fs.createError nl.filename = true
  · rw [if_pos hc] at hsave; cases hsave
  · rw [if_neg hc] at hsave ⊢
    cases hw : fs.writeError nl.filename with
    | some left => rw [hw] at hsave; cases hsave
    | none => simp [FS.put]

/-- On a store of the store model, `saveRaw` is `save`. -/
theorem saveRaw_toRaw (nl : NoLearn) (fs : FS) : saveRaw nl.toRaw fs = save nl fs := by
  have henc : encodeRawTasks nl.toRaw.tasks = encodeTasks nl.tasks := by
    simp [encodeRawTasks, NoLearn.toRaw, encodeTasks, encodeRawTask, encodeTask, Task.toRaw,
      toValidUTF8_ofString, List.map_map, Function.comp_def]
  unfold saveRaw save
  rw [henc]
  rfl

/-- On a fresh store, `loadFreshRaw` is `load`: the same error and the same
tasks. -/
theorem loadFreshRaw_eq_load (filename : String) (fs : FS) :
    (loadFreshRaw filename fs).2 = (load (newNoLearn filename) fs).2 ∧
    (loadFreshRaw filename fs).1.tasks.toList
      = (load (newNoLearn filename) fs).1.tasks.map Task.toRaw ∧
    (loadFreshRaw filename fs).1.cursor = (load (newNoLearn filename) fs).1.cursor ∧
    (loadFreshRaw filename fs).1.filename = (load (newNoLearn filename) fs).1.filename := by
  unfold loadFreshRaw load
  by_cases ho : fs.openError filename = true
  · simp [ho, newNoLearn, newRawNoLearn, RawSlice.toList]
  · simp only [newNoLearn, ho]
    cases hf : fs.files filename with
    | none => simp [newRawNoLearn, RawSlice.toList]
    | some d =>
      cases d with
      | invalid => simp [newRawNoLearn, RawSlice.toList]
      | json v =>
        cases v <;> simp [decodeFreshRaw, decodeTasks, newRawNoLearn, RawSlice.toList]

/-- On a store of the store model and a valid text, `promptForNewTaskRaw` is
`promptForNewTask`. -/
theorem promptForNewTaskRaw_toRaw (nl : NoLearn) (text : String) :
    promptForNewTaskRaw nl.toRaw (RawString.ofString text) = (promptForNewTask nl text).toRaw := by
  have hdrop : ∀ l : List Char,
      (l.map Code.rune).dropWhile Code.isSpace = (l.dropWhile isSpace).map Code.rune := by
    intro l
    induction l with
    | nil => rfl
    | cons c rest ih =>
      simp only [List.map_cons, List.dropWhile_cons, Code.isSpace]
      split <;> simp [ih]
  have htrim : RawString.TrimSpace (RawString.ofString text)
      = RawString.ofString (TrimSpace text) := by
    simp only [RawString.TrimSpace, RawString.ofString, TrimSpace, List.rdropWhile, hdrop,
      ← List.map_reverse]
  have hnil : ∀ t : String, RawString.ofString t = [] ↔ t = "" := by
    intro t
    cases t with
    | mk data =>
      simp only [RawString.ofString, List.map_eq_nil_iff]
      constructor
      · intro h; rw [h]
      · intro h; exact congrArg String.data h
  unfold promptForNewTaskRaw promptForNewTask
  rw [htrim]
  unfold addTaskRaw addTask
  by_cases he : TrimSpace text = ""
  · rw [if_pos ((hnil _).mpr he), if_pos he]
  · rw [if_neg (fun h => he ((hnil _).mp h)), if_neg he]
    simp [NoLearn.toRaw, RawSlice.append, RawSlice.toList, Task.toRaw]

/-- C10, as stated, fails.  The prompt stores the line `a`, the invalid byte
`0xFF`, `b`, as `reader.ReadString` can deliver it; the task is saved
successfully and comes back with U+FFFD in place of the byte: the sequence
loaded is not the sequence saved.  And a save can succeed while the load that
follows cannot open the file (created under a umask that takes the read
permission away): the load then returns the error and yields no task. -/
theorem save_load_not_restored :
    promptForNewTaskRaw (newRawNoLearn "tasks.json")
        [.rune 'a', .invalid 0xFF, .rune 'b', .rune (Char.ofNat 10)]
      = ⟨.elems [⟨[.rune 'a', .invalid 0xFF, .rune 'b'], Todo⟩], 0, "tasks.json"⟩ ∧
    (saveRaw ⟨.elems [⟨[.rune 'a', .invalid 0xFF, .rune 'b'], Todo⟩], 0, "tasks.json"⟩
      FS.empty).2 = none ∧
    loadFreshRaw "tasks.json"
        (saveRaw ⟨.elems [⟨[.rune 'a', .invalid 0xFF, .rune 'b'], Todo⟩], 0, "tasks.json"⟩
          FS.empty).1
      = (⟨.elems [⟨[.rune 'a', .rune (Char.ofNat 0xFFFD), .rune 'b'], Todo⟩], 0, "tasks.json"⟩,
         none) ∧
    (loadFreshRaw "tasks.json"
        (saveRaw ⟨.elems [⟨[.rune 'a', .invalid 0xFF, .rune 'b'], Todo⟩], 0, "tasks.json"⟩
          FS.empty).1).1.tasks.toList
      ≠ [⟨[.rune 'a', .invalid 0xFF, .rune 'b'], Todo⟩] ∧
    (saveRaw ⟨.elems [⟨RawString.ofString "a", Todo⟩], 0, "tasks.json"⟩ FS.openFails).2 = none ∧
    loadFreshRaw "tasks.json"
        (saveRaw ⟨.elems [⟨RawString.ofString "a", Todo⟩], 0, "tasks.json"⟩ FS.openFails).1
      = (newRawNoLearn "tasks.json", some .osOpen) := by
  decide

/-- C10, amended: when `save` succeeds and the load that follows can open the
file, loading the same path into a fresh store returns no error, leaves the
cursor at 0, and yields the saved tasks in order, each with its status and
with its text coerced to valid UTF-8; so it yields exactly the saved sequence
of (text, status) pairs if and only if every text is valid UTF-8, whatever the
statuses are.  When the load cannot open the file it returns that error.  What
`save` writes does not depend on the cursor. -/
theorem save_load_roundtrip (nl : RawNoLearn) (fs : FS) (hsave : (saveRaw nl fs).2 = none) :
    (fs.openError nl.filename = false →
      (loadFreshRaw nl.filename (saveRaw nl fs).1).2 = none ∧
      (loadFreshRaw nl.filename (saveRaw nl fs).1).1.cursor = 0 ∧
      (loadFreshRaw nl.filename (saveRaw nl fs).1).1.filename = nl.filename ∧
      (loadFreshRaw nl.filename (saveRaw nl fs).1).1.tasks.toList
        = nl.tasks.toList.map
            (fun t => { Text := RawString.ofString t.Text.toValidUTF8, Status := t.Status }) ∧
      ((∀ t ∈ nl.tasks.toList, t.Text.valid = true) →
        (loadFreshRaw nl.filename (saveRaw nl fs).1).1.tasks.toList = nl.tasks.toList ∧
        (loadFreshRaw nl.filename (saveRaw nl fs).1).1.tasks.toList.map
            (fun t => (t.Text, t.Status))
          = nl.tasks.toList.map (fun t => (t.Text, t.Status))) ∧
      ((loadFreshRaw nl.filename (saveRaw nl fs).1).1.tasks.toList = nl.tasks.toList
        ↔ ∀ t ∈ nl.tasks.toList, t.Text.valid = true)) ∧
    (fs.openError nl.filename = true →
      loadFreshRaw nl.filename (saveRaw nl fs).1 = (newRawNoLearn nl.filename, some .osOpen)) ∧
    (∀ c : Int, saveRaw { nl with cursor := c } fs = saveRaw nl fs) := by
  obtain ⟨hfile, hopen'⟩ := saveRaw_success_files nl fs hsave
  refine ⟨?_, ?_, fun c => rfl⟩
  · intro hopen
    have hload : loadFreshRaw nl.filename (saveRaw nl fs).1
        = ({ newRawNoLearn nl.filename with
              tasks := (decodeFreshRaw (encodeRawTasks nl.tasks)).1 },
           (decodeFreshRaw (encodeRawTasks nl.tasks)).2) := by
      unfold loadFreshRaw
      simp only [hfile, hopen', hopen]
      rfl
    have hdec : (decodeFreshRaw (encodeRawTasks nl.tasks)).2 = none ∧
        (decodeFreshRaw (encodeRawTasks nl.tasks)).1.toList
          = nl.tasks.toList.map
              (fun t => { Text := RawString.ofString t.Text.toValidUTF8, Status := t.Status }) := by
      cases nl.tasks with
      | nil => exact ⟨rfl, rfl⟩
      | elems tasks =>
        simp only [encodeRawTasks, decodeFreshRaw, decodeTasks_encodeRawTasks, RawSlice.toList,
          List.map_map, true_and]
        rfl
    have hiff : nl.tasks.toList.map
          (fun t =>
            ({ Text := RawString.ofString t.Text.toValidUTF8, Status := t.Status } : RawTask))
          = nl.tasks.toList ↔ ∀ t ∈ nl.tasks.toList, t.Text.valid = true := by
      generalize nl.tasks.toList = l
      induction l with
      | nil => simp
      | cons t rest ih =>
        simp only [List.map_cons, List.cons.injEq, List.mem_cons, forall_eq_or_imp, ih]
        have ht : ({ Text := RawString.ofString t.Text.toValidUTF8, Status := t.Status } : RawTask)
            = t ↔ t.Text.valid = true := by
          rw [← ofString_toValidUTF8_iff]
          constructor
          · intro h; exact congrArg RawTask.Text h
          · intro h
            cases t
            simp only at h ⊢
            rw [h]
        rw [ht]
    rw [hload]
    refine ⟨hdec.1, rfl, rfl, hdec.2, ?_, ?_⟩
    · intro hvalid
      have heq : (decodeFreshRaw (encodeRawTasks nl.tasks)).1.toList = nl.tasks.toList := by
        rw [hdec.2]; exact hiff.mpr hvalid
      exact ⟨heq, by simp only [heq]⟩
    · simp only [hdec.2]
      exact hiff
  · intro hopen
    unfold loadFreshRaw
    simp only [hopen', hopen, if_true]

/-- Witness of C10 amended: start empty, add "Learn Go", cycle forward once,
save, reload: one task, text "Learn Go", status `Seen`, cursor 0. -/
theorem save_load_roundtrip_witness :
    cycleStatusForward (addTask (newNoLearn "tasks.json") "Learn Go")
      = .ok ⟨[⟨"Learn Go", Seen⟩], 0, "tasks.json"⟩ ∧
    (loadFreshRaw "tasks.json"
        (saveRaw (NoLearn.toRaw ⟨[⟨"Learn Go", Seen⟩], 0, "tasks.json"⟩) FS.empty).1).1.tasks.toList
      = [⟨RawString.ofString "Learn Go", Seen⟩] ∧
    (loadFreshRaw "tasks.json"
        (saveRaw (NoLearn.toRaw ⟨[⟨"Learn Go", Seen⟩], 0, "tasks.json"⟩) FS.empty).1).1.cursor = 0 :=
  ⟨by decide,
   (((save_load_roundtrip (NoLearn.toRaw ⟨[⟨"Learn Go", Seen⟩], 0, "tasks.json"⟩) FS.empty
      (by decide)).1 (by decide)).2.2.2.2.1 (by decide)).1,
   ((save_load_roundtrip (NoLearn.toRaw ⟨[⟨"Learn Go", Seen⟩], 0, "tasks.json"⟩) FS.empty
      (by decide)).1 (by decide)).2.1⟩

/-! ## Loading malformed and missing files -/

theorem decodeMember_snd (acc : Task × Bool) (m : String × JSON) :
    (decodeMember acc m).2 = (acc.2 || ((fieldOf m.1).isSome && notStringOrNull m.2)) := by
  obtain ⟨key, v⟩ := m
  unfold decodeMember
  cases hf : fieldOf key with
  | none => simp
  | some f =>
    cases f <;> cases v <;> simp [notStringOrNull]

theorem foldl_decodeMember_snd (members : List (String × JSON)) (acc : Task × Bool) :
    (members.foldl decodeMember acc).2
      = (acc.2 || members.any (fun m => (fieldOf m.1).isSome && notStringOrNull m.2)) := by
  induction members generalizing acc with
  | nil => simp
  | cons m rest ih =>
    rw [List.foldl_cons, ih, decodeMember_snd, List.any_cons, Bool.or_assoc]

theorem decodeTask_snd (target : Task) (v : JSON) :
    (decodeTask target v).2 = illTypedElement v := by
  cases v <;> simp [decodeTask, illTypedElement, foldl_decodeMember_snd]

theorem validTaskObject_wellTyped (v : JSON) (h : validTaskObject v = true) :
    illTypedElement v = false := by
  unfold validTaskObject at h
  split at h
  · simp [illTypedElement, notStringOrNull]
  · cases h

theorem any_decodeTask_snd (elems : List JSON) :
    (elems.map (decodeTask Task.zero)).any Prod.snd = elems.any illTypedElement := by
  induction elems with
  | nil => rfl
  | cons e es ih => simp only [List.map_cons, List.any_cons, ih, decodeTask_snd]

theorem load_fresh_array (filename : String) (fs : FS) (elems : List JSON)
    (hopen : fs.openError filename = false)
    (hfile : fs.files filename = some (.json (.array elems))) :
    load (newNoLearn filename) fs
      = ({ tasks := elems.map (fun e => (decodeTask Task.zero e).1), cursor := 0,
           filename := filename },
         if elems.any illTypedElement then some Error.unmarshalType else none) := by
  have hany := any_decodeTask_snd elems
  simp only [load, newNoLearn, hopen, hfile, decodeTasks, decodeElems_nil, hany, List.map_map,
    Function.comp_def]
  rfl

/-- C11, as stated, fails, in both of its parts.  A file whose array holds
one well-formed task followed by a number makes `load` return an error, yet
the fresh store then holds two tasks, the decoded one and a zero task.  And
the malformed contents `[{}]`, `[null]` and `null` are loaded without any
error. -/
theorem load_malformed_counterexamples :
    validEncoding (.json (.array [encodeTask ⟨"a", Todo⟩, .number "5"])) = false ∧
    load (newNoLearn "tasks.json")
        (FS.empty.put "tasks.json" (.json (.array [encodeTask ⟨"a", Todo⟩, .number "5"])))
      = (⟨[⟨"a", "todo"⟩, ⟨"", ""⟩], 0, "tasks.json"⟩, some .unmarshalType) ∧
    (load (newNoLearn "tasks.json")
        (FS.empty.put "tasks.json" (.json (.array [encodeTask ⟨"a", Todo⟩, .number "5"])))).1.tasks
      ≠ (newNoLearn "tasks.json").tasks ∧
    validEncoding (.json (.array [.object []])) = false ∧
    load (newNoLearn "tasks.json") (FS.empty.put "tasks.json" (.json (.array [.object []])))
      = (⟨[⟨"", ""⟩], 0, "tasks.json"⟩, none) ∧
    validEncoding (.json (.array [.null])) = false ∧
    load (newNoLearn "tasks.json") (FS.empty.put "tasks.json" (.json (.array [.null])))
      = (⟨[⟨"", ""⟩], 0, "tasks.json"⟩, none) ∧
    validEncoding (.json .null) = false ∧
    load (newNoLearn "tasks.json") (FS.empty.put "tasks.json" (.json .null))
      = (newNoLearn "tasks.json", none) := by
  decide

/-- C11, amended: for an existing file, `load` into a fresh store returns an
error when the file cannot be opened, and otherwise exactly when no JSON value
can be read from the file, or its value is neither an array nor `null`, or its
value is an array with an ill-typed element; every such content is malformed,
and every other malformed content is loaded without error.  The store is
unchanged when the file cannot be opened, when no JSON value can be read and
when the value is neither an array nor `null`; when the value is an array, the
store holds one task per array element, each with the fields that could be
decoded, also when `load` returns the error of an ill-typed element.  On every
error of `load`, `main` reports it and returns without reading a key or
saving. -/
theorem load_malformed (filename : String) (fs : FS) (d : FileData)
    (hfile : fs.files filename = some d) :
    (fs.openError filename = true →
      load (newNoLearn filename) fs = (newNoLearn filename, some .osOpen)) ∧
    (fs.openError filename = false →
      ((load (newNoLearn filename) fs).2 ≠ none ↔
        (d = .invalid ∨ (∃ v, d = .json v ∧ illTypedTop v = true) ∨
          ∃ elems, d = .json (.array elems) ∧ ∃ e ∈ elems, illTypedElement e = true)) ∧
      ((load (newNoLearn filename) fs).2 ≠ none → validEncoding d = false) ∧
      (d = .invalid → load (newNoLearn filename) fs = (newNoLearn filename, some .malformed)) ∧
      (∀ v, d = .json v → illTypedTop v = true →
        load (newNoLearn filename) fs = (newNoLearn filename, some .unmarshalType)) ∧
      (∀ elems, d = .json (.array elems) →
        (load (newNoLearn filename) fs).1.tasks = elems.map (fun e => (decodeTask Task.zero e).1) ∧
        (load (newNoLearn filename) fs).1.tasks.length = elems.length ∧
        (load (newNoLearn filename) fs).1.cursor = 0 ∧
        ((∃ e ∈ elems, illTypedElement e = true) →
          (load (newNoLearn filename) fs).2 = some .unmarshalType) ∧
        ((∀ e ∈ elems, illTypedElement e = false) → (load (newNoLearn filename) fs).2 = none)) ∧
      (d = .json .null → load (newNoLearn filename) fs = (newNoLearn filename, none))) ∧
    (∀ args keyboardOpens reads err,
      (load (newNoLearn (argFilename args)) fs).2 = some err →
      main args keyboardOpens reads fs
        = .ok (some { nl := (load (newNoLearn (argFilename args)) fs).1, fs := fs,
                      unread := reads,
                      trace := [Event.printError "Error loading tasks: %v\n" err] })) := by
  refine ⟨?_, ?_, ?_⟩
  · intro hopen
    simp [load, newNoLearn, hopen]
  · intro hopen
    have hinv : d = .invalid →
        load (newNoLearn filename) fs = (newNoLearn filename, some .malformed) := by
      intro hd
      subst hd
      simp [load, newNoLearn, hopen, hfile]
    have htop : ∀ v, d = .json v → illTypedTop v = true →
        load (newNoLearn filename) fs = (newNoLearn filename, some .unmarshalType) := by
      intro v hd hv
      subst hd
      cases v <;> simp [illTypedTop] at hv <;> simp [load, newNoLearn, hopen, hfile, decodeTasks]
    have hnull : d = .json .null →
        load (newNoLearn filename) fs = (newNoLearn filename, none) := by
      intro hd
      subst hd
      simp [load, newNoLearn, hopen, hfile, decodeTasks]
    have harr : ∀ elems, d = .json (.array elems) →
        load (newNoLearn filename) fs
          = ({ tasks := elems.map (fun e => (decodeTask Task.zero e).1), cursor := 0,
               filename := filename },
             if elems.any illTypedElement then some Error.unmarshalType else none) := by
      intro elems hd
      subst hd
      exact load_fresh_array filename fs elems hopen hfile
    have hiff : (load (newNoLearn filename) fs).2 ≠ none ↔
        (d = .invalid ∨ (∃ v, d = .json v ∧ illTypedTop v = true) ∨
          ∃ elems, d = .json (.array elems) ∧ ∃ e ∈ elems, illTypedElement e = true) := by
      cases d with
      | invalid => simp [hinv rfl]
      | json v =>
        cases v with
        | null => simp [hnull rfl, illTypedTop]
        | array elems =>
          rw [harr elems rfl]
          by_cases hany : elems.any illTypedElement = true
          · simp only [hany, if_true, ne_eq, reduceCtorEq, not_false_eq_true, true_iff]
            right; right
            exact ⟨elems, rfl, by simpa [List.any_eq_true] using hany⟩
          · have hnone : ¬ ∃ e ∈ elems, illTypedElement e = true := by
              simpa [List.any_eq_true] using hany
            simp [hany, illTypedTop, hnone]
        | bool b => simp [htop (.bool b) rfl rfl, illTypedTop]
        | number n => simp [htop (.number n) rfl rfl, illTypedTop]
        | string x => simp [htop (.string x) rfl rfl, illTypedTop]
        | object ms => simp [htop (.object ms) rfl rfl, illTypedTop]
    refine ⟨hiff, ?_, hinv, htop, ?_, hnull⟩
    · intro herr
      rcases hiff.mp herr with hd | ⟨v, hd, hv⟩ | ⟨elems, hd, e, he, hill⟩
      · subst hd; rfl
      · subst hd
        cases v <;> simp [illTypedTop] at hv <;> rfl
      · subst hd
        simp only [validEncoding]
        by_contra hall
        have hall' : elems.all validTaskObject = true := by simpa using hall
        have hv := (List.all_eq_true.mp hall') e he
        rw [validTaskObject_wellTyped e hv] at hill
        cases hill
    · intro elems hd
      rw [harr elems hd]
      refine ⟨rfl, by simp, rfl, ?_, ?_⟩
      · rintro ⟨e, he, hill⟩
        have hany : elems.any illTypedElement = true := List.any_eq_true.mpr ⟨e, he, hill⟩
        simp [hany]
      · intro hall
        have hany : elems.any illTypedElement = false := by
          rw [List.any_eq_false]
          intro e he
          simp [hall e he]
        simp [hany]
  · intro args keyboardOpens reads err herr
    unfold main
    simp only [herr]

/-- Witness of C11 amended: an unreadable file, a file holding a number, and a
file whose array holds a task followed by a number. -/
theorem load_malformed_witness :
    load (newNoLearn "t") (FS.empty.put "t" .invalid) = (newNoLearn "t", some .malformed) ∧
    load (newNoLearn "t") (FS.empty.put "t" (.json (.number "5")))
      = (newNoLearn "t", some .unmarshalType) ∧
    (load (newNoLearn "t")
      (FS.empty.put "t" (.json (.array [encodeTask ⟨"a", Todo⟩, .number "5"])))).2
      = some .unmarshalType :=
  ⟨((load_malformed "t" (FS.empty.put "t" .invalid) .invalid rfl).2.1 (by decide)).2.2.1 rfl,
   ((load_malformed "t" (FS.empty.put "t" (.json (.number "5"))) (.json (.number "5"))
      rfl).2.1 (by decide)).2.2.2.1 (.number "5") rfl (by decide),
   ((((load_malformed "t"
      (FS.empty.put "t" (.json (.array [encodeTask ⟨"a", Todo⟩, .number "5"])))
      (.json (.array [encodeTask ⟨"a", Todo⟩, .number "5"])) rfl).2.1 (by decide)).2.2.2.2.1
      [encodeTask ⟨"a", Todo⟩, .number "5"] rfl).2.2.2.1)
      ⟨.number "5", by simp, by decide⟩⟩

/-- C12, as stated, fails: at a path with no file, `os.Open` can fail with an
error other than does-not-exist (the path lies below a regular file, or below
a directory that may not be searched); `load` then returns that error. -/
theorem load_missing_file_open_error :
    FS.openFails.files "plain/tasks.json" = none ∧
    load (newNoLearn "plain/tasks.json") FS.openFails
      = (newNoLearn "plain/tasks.json", some .osOpen) ∧
    (load (newNoLearn "plain/tasks.json") FS.openFails).2 ≠ none :=
  ⟨rfl, by decide, by decide⟩

/-- C12, amended: when there is no file at the path and `os.Open` fails with a
does-not-exist error, `load` on the fresh store returns no error and leaves
the store as `newNoLearn` made it: empty task list, cursor 0.  When `os.Open`
fails there with another error, `load` returns that error. -/
theorem load_missing_file (filename : String) (fs : FS) (hfile : fs.files filename = none) :
    (fs.openError filename = false →
      load (newNoLearn filename) fs = (newNoLearn filename, none) ∧
      (load (newNoLearn filename) fs).2 = none ∧
      (load (newNoLearn filename) fs).1.tasks = [] ∧
      (load (newNoLearn filename) fs).1.cursor = 0) ∧
    (fs.openError filename = true →
      load (newNoLearn filename) fs = (newNoLearn filename, some .osOpen)) := by
  constructor
  · intro hopen
    have h : load (newNoLearn filename) fs = (newNoLearn filename, none) := by
      simp [load, newNoLearn, hopen, hfile]
    rw [h]
    exact ⟨rfl, rfl, rfl, rfl⟩
  · intro hopen
    simp [load, newNoLearn, hopen]

/-- Witness of C12 amended: the file system without files. -/
theorem load_missing_file_witness :
    load (newNoLearn "tasks.json") FS.empty = (newNoLearn "tasks.json", none) :=
  ((load_missing_file "tasks.json" FS.empty rfl).1 (by decide)).1

/-! ## The dispatch of key events -/

theorem specFirstMatch_eq (char : Char) (key : Key) :
    specFirstMatch char key =
      if char = 'q' ∨ key = Key.KeyEsc then some Row.quit
      else if char = 'e' ∨ key = Key.KeyArrowUp then some Row.up
      else if char = 'd' ∨ key = Key.KeyArrowDown then some Row.down
      else if char = 'f' then some Row.forward
      else if char = 's' then some Row.backward
      else if char = 'n' then some Row.newTask
      else if char = 'x' then some Row.delete
      else none := by
  unfold specFirstMatch specRows
  simp only [List.find?, Row.triggered]
  split_ifs <;> simp_all

theorem handleInput_eq_specHandle (char : Char) (key : Key) (typed : String) (nl : NoLearn)
    (fs : FS) : handleInput char key typed nl fs = specHandle char key typed nl fs := by
  unfold handleInput specHandle
  rw [specFirstMatch_eq]
  split_ifs
  · simp [Row.specEffect, Row.specPersists]
  · simp [Row.specEffect, Row.specPersists]
  · simp [Row.specEffect, Row.specPersists]
  · simp only [Row.specEffect, Row.specPersists, Row.specTrace, saveDiscard]
    cases cycleStatusForward nl <;> simp
  · simp only [Row.specEffect, Row.specPersists, Row.specTrace, saveDiscard]
    cases cycleStatusBackward nl <;> simp
  · simp [Row.specEffect, Row.specPersists, Row.specTrace, saveDiscard, promptForNewTask]
  · simp only [Row.specEffect, Row.specPersists, Row.specTrace, saveDiscard]
    cases deleteCurrentTask nl <;> simp
  · rfl

theorem handleInput_quit (char : Char) (key : Key) (typed : String) (nl : NoLearn) (fs : FS)
    (hq : char = 'q' ∨ key = Key.KeyEsc) :
    handleInput char key typed nl fs
      = .ok { shouldQuit := true, nl := nl, fs := fs, trace := [] } := by
  unfold handleInput
  rw [if_pos hq]

theorem handleInput_not_quit (char : Char) (key : Key) (typed : String) (nl : NoLearn) (fs : FS)
    (hq : ¬ (char = 'q' ∨ key = Key.KeyEsc)) (h : Handled)
    (heq : handleInput char key typed nl fs = .ok h) : h.shouldQuit = false := by
  unfold handleInput at heq
  rw [if_neg hq] at heq
  split_ifs at heq
  · cases heq; rfl
  · cases heq; rfl
  · cases hc : cycleStatusForward nl with
    | error e => rw [hc] at heq; cases heq
    | ok nl' => rw [hc] at heq; cases heq; rfl
  · cases hc : cycleStatusBackward nl with
    | error e => rw [hc] at heq; cases heq
    | ok nl' => rw [hc] at heq; cases heq; rfl
  · cases heq; rfl
  · cases hc : deleteCurrentTask nl with
    | error e => rw [hc] at heq; cases heq
    | ok nl' => rw [hc] at heq; cases heq; rfl
  · cases heq; rfl

theorem handleInput_inv (char : Char) (key : Key) (typed : String) (nl : NoLearn) (fs : FS)
    (hinv : Inv nl) : ∃ h, handleInput char key typed nl fs = .ok h ∧ Inv h.nl := by
  unfold handleInput
  split_ifs
  · exact ⟨_, rfl, hinv⟩
  · exact ⟨_, rfl, inv_moveCursorUp nl hinv⟩
  · exact ⟨_, rfl, inv_moveCursorDown nl hinv⟩
  · obtain ⟨nl', hok, hinv'⟩ := inv_cycleStatusForward nl hinv
    rw [hok]
    exact ⟨_, rfl, hinv'⟩
  · obtain ⟨nl', hok, hinv'⟩ := inv_cycleStatusBackward nl hinv
    rw [hok]
    exact ⟨_, rfl, hinv'⟩
  · exact ⟨_, rfl, inv_addTask nl (TrimSpace typed) hinv⟩
  · obtain ⟨nl', hok, hinv'⟩ := inv_deleteCurrentTask nl hinv
    rw [hok]
    exact ⟨_, rfl, hinv'⟩
  · exact ⟨_, rfl, hinv⟩

/-- C13: `handleInput` returns true exactly for the key events with
`char == 'q'` or `key == keyboard.KeyEsc`, and for those it returns at once:
store and file system unchanged, no event, no save.  For every other key
event it returns false whenever it returns, which it does in every state
satisfying the session invariant. -/
theorem handleInput_shouldQuit_iff (char : Char) (key : Key) (typed : String) (nl : NoLearn)
    (fs : FS) :
    ((∃ h, handleInput char key typed nl fs = .ok h ∧ h.shouldQuit = true)
      ↔ (char = 'q' ∨ key = Key.KeyEsc)) ∧
    (char = 'q' ∨ key = Key.KeyEsc →
      handleInput char key typed nl fs
        = .ok { shouldQuit := true, nl := nl, fs := fs, trace := [] }) ∧
    (∀ h, handleInput char key typed nl fs = .ok h → h.shouldQuit = true →
      h.nl.tasks = nl.tasks ∧ h.nl.cursor = nl.cursor ∧ h.nl = nl ∧ h.fs = fs ∧
      h.trace = [] ∧ saveCount h.trace = 0) ∧
    (¬ (char = 'q' ∨ key = Key.KeyEsc) →
      (∀ h, handleInput char key typed nl fs = .ok h → h.shouldQuit = false) ∧
      (Inv nl → ∃ h, handleInput char key typed nl fs = .ok h ∧ h.shouldQuit = false)) := by
  have htrue : ∀ h, handleInput char key typed nl fs = .ok h → h.shouldQuit = true →
      char = 'q' ∨ key = Key.KeyEsc := by
    intro h heq hs
    by_contra hq
    rw [handleInput_not_quit char key typed nl fs hq h heq] at hs
    cases hs
  refine ⟨⟨?_, ?_⟩, handleInput_quit char key typed nl fs, ?_, ?_⟩
  · rintro ⟨h, heq, hs⟩
    exact htrue h heq hs
  · intro hq
    exact ⟨_, handleInput_quit char key typed nl fs hq, rfl⟩
  · intro h heq hs
    rw [handleInput_quit char key typed nl fs (htrue h heq hs)] at heq
    cases heq
    exact ⟨rfl, rfl, rfl, rfl, rfl, rfl⟩
  · intro hq
    refine ⟨handleInput_not_quit char key typed nl fs hq, ?_⟩
    intro hinv
    obtain ⟨h, heq, _⟩ := handleInput_inv char key typed nl fs hinv
    exact ⟨h, heq, handleInput_not_quit char key typed nl fs hq h heq⟩

/-- Witness of C13: the Escape key quits, the key `f` does not. -/
theorem handleInput_shouldQuit_iff_witness :
    handleInput 'a' Key.KeyEsc "" ⟨[⟨"a", Todo⟩], 0, "tasks.json"⟩ FS.empty
      = .ok { shouldQuit := true, nl := ⟨[⟨"a", Todo⟩], 0, "tasks.json"⟩, fs := FS.empty,
              trace := [] } ∧
    ∃ h, handleInput 'f' (Key.other 0) "" ⟨[⟨"a", Todo⟩], 0, "tasks.json"⟩ FS.empty = .ok h ∧
      h.shouldQuit = false :=
  ⟨(handleInput_shouldQuit_iff 'a' Key.KeyEsc "" ⟨[⟨"a", Todo⟩], 0, "tasks.json"⟩ FS.empty).2.1
      (Or.inr rfl),
   ((handleInput_shouldQuit_iff 'f' (Key.other 0) "" ⟨[⟨"a", Todo⟩], 0, "tasks.json"⟩
      FS.empty).2.2.2 (by decide)).2 (by decide)⟩

/-- C14: the store that `handleInput` leaves behind, and so its task list and
cursor, is the one that the store operation of the first matching row of the
dispatch table leaves behind, the rows being tried in the order quit, up,
down, forward, backward, new task, delete; a panic of that operation is the
panic of `handleInput`.  A key event matching no row leaves store and file
system unchanged, produces no event and returns false. -/
theorem handleInput_follows_dispatch_table (char : Char) (key : Key) (typed : String)
    (nl : NoLearn) (fs : FS) :
    specRows = [Row.quit, Row.up, Row.down, Row.forward, Row.backward, Row.newTask, Row.delete] ∧
    Except.map Handled.nl (handleInput char key typed nl fs)
      = (match specFirstMatch char key with
         | some row => row.specEffect typed nl
         | none => .ok nl) ∧
    Except.map (fun h => (h.nl.tasks, h.nl.cursor)) (handleInput char key typed nl fs)
      = Except.map (fun s => (s.tasks, s.cursor))
          (match specFirstMatch char key with
           | some row => row.specEffect typed nl
           | none => .ok nl) ∧
    (specFirstMatch char key = none →
      handleInput char key typed nl fs
        = .ok { shouldQuit := false, nl := nl, fs := fs, trace := [] }) := by
  rw [handleInput_eq_specHandle]
  unfold specHandle
  refine ⟨rfl, ?_, ?_, ?_⟩
  · cases specFirstMatch char key with
    | none => rfl
    | some row =>
      simp only
      cases row.specEffect typed nl with
      | error e => rfl
      | ok nl' => split_ifs <;> rfl
  · cases specFirstMatch char key with
    | none => rfl
    | some row =>
      simp only
      cases row.specEffect typed nl with
      | error e => rfl
      | ok nl' => split_ifs <;> rfl
  · intro hnone
    rw [hnone]

/-- Witness of C14: no row matches the key `z`, and the arrow-up key moves
the cursor up. -/
theorem handleInput_follows_dispatch_table_witness :
    handleInput 'z' (Key.other 0) "" ⟨[⟨"a", Todo⟩, ⟨"b", Todo⟩], 1, "tasks.json"⟩ FS.empty
      = .ok { shouldQuit := false, nl := ⟨[⟨"a", Todo⟩, ⟨"b", Todo⟩], 1, "tasks.json"⟩,
              fs := FS.empty, trace := [] } ∧
    Except.map Handled.nl
      (handleInput 'z' Key.KeyArrowUp "" ⟨[⟨"a", Todo⟩, ⟨"b", Todo⟩], 1, "tasks.json"⟩ FS.empty)
      = .ok ⟨[⟨"a", Todo⟩, ⟨"b", Todo⟩], 0, "tasks.json"⟩ :=
  ⟨(handleInput_follows_dispatch_table 'z' (Key.other 0) ""
      ⟨[⟨"a", Todo⟩, ⟨"b", Todo⟩], 1, "tasks.json"⟩ FS.empty).2.2.2 (by decide),
   (handleInput_follows_dispatch_table 'z' Key.KeyArrowUp ""
      ⟨[⟨"a", Todo⟩, ⟨"b", Todo⟩], 1, "tasks.json"⟩ FS.empty).2.1.trans (by decide)⟩

/-! ## Persistence after mutating commands -/

/-- C16, evaluated on the code: when `os.Create` fails, each of the commands
`f`, `s`, `n` and `x` returns false after a save that returned the error, and
the trace of the call holds that save and no report of it (for `n` only the
prompt dialogue besides); the final save of `main` reports the same error. -/
theorem save_failure_in_loop_unreported :
    Except.map (fun h => (h.shouldQuit, h.nl, h.trace))
        (handleInput 'f' (Key.other 0) "" ⟨[⟨"a", Todo⟩], 0, "tasks.json"⟩ FS.createFails)
      = .ok (false, ⟨[⟨"a", Seen⟩], 0, "tasks.json"⟩,
             [Event.save [⟨"a", Seen⟩] (some Error.osCreate)]) ∧
    Except.map (fun h => (h.shouldQuit, h.nl, h.trace))
        (handleInput 's' (Key.other 0) "" ⟨[⟨"a", Done⟩], 0, "tasks.json"⟩ FS.createFails)
      = .ok (false, ⟨[⟨"a", Seen⟩], 0, "tasks.json"⟩,
             [Event.save [⟨"a", Seen⟩] (some Error.osCreate)]) ∧
    Except.map (fun h => (h.shouldQuit, h.nl, h.trace))
        (handleInput 'x' (Key.other 0) "" ⟨[⟨"a", Todo⟩], 0, "tasks.json"⟩ FS.createFails)
      = .ok (false, ⟨[], 0, "tasks.json"⟩, [Event.save [] (some Error.osCreate)]) ∧
    Except.map (fun h => (h.shouldQuit, h.nl, h.trace))
        (handleInput 'n' (Key.other 0) "b\n" ⟨[], 0, "tasks.json"⟩ FS.createFails)
      = .ok (false, ⟨[⟨"b", Todo⟩], 0, "tasks.json"⟩,
             [Event.print "\x1b[?25h", Event.keyboardClose, Event.print "\r\nEnter new task: ",
              Event.readString "b\n", Event.keyboardOpen, Event.print "\x1b[?25l",
              Event.save [⟨"b", Todo⟩] (some Error.osCreate)]) ∧
    (shutdown ⟨[⟨"a", Seen⟩], 0, "tasks.json"⟩ FS.createFails).2
      = [Event.save [⟨"a", Seen⟩] (some Error.osCreate),
         Event.printError "Error saving tasks: %v\n" Error.osCreate,
         Event.print "\x1b[?25h", Event.keyboardClose] := by
  decide

/-! ## The main loop and shutdown -/

theorem stops_false_event (r : ReadResult) (h : r.stops = false) :
    ∃ char key typed, r = ReadResult.event char key typed ∧ ¬ (char = 'q' ∨ key = Key.KeyEsc) := by
  cases r with
  | error => cases h
  | event char key typed =>
    refine ⟨char, key, typed, rfl, ?_⟩
    simpa [ReadResult.stops] using h

theorem mainLoop_stop_head (stop : ReadResult) (post : List ReadResult) (nl : NoLearn) (fs : FS)
    (hstop : stop.stops = true) :
    ∃ tr, mainLoop (stop :: post) nl fs
      = .ok (some { nl := nl, fs := fs, trace := tr, unread := post }) := by
  cases stop with
  | error => exact ⟨_, rfl⟩
  | event char key typed =>
    have hq : char = 'q' ∨ key = Key.KeyEsc := by simpa [ReadResult.stops] using hstop
    refine ⟨display nl ++ [], ?_⟩
    unfold mainLoop
    rw [handleInput_quit char key typed nl fs hq]
    rfl

theorem mainLoop_stops (pre : List ReadResult) (stop : ReadResult) (post : List ReadResult)
    (hpre : ∀ r ∈ pre, r.stops = false) (hstop : stop.stops = true)
    (nl : NoLearn) (fs : FS) (nl' : NoLearn) (fs' : FS)
    (hall : handleAll pre nl fs = .ok (nl', fs')) :
    ∃ tr, mainLoop (pre ++ stop :: post) nl fs
      = .ok (some { nl := nl', fs := fs', trace := tr, unread := post }) := by
  induction pre generalizing nl fs with
  | nil =>
    cases hall
    exact mainLoop_stop_head stop post _ _ hstop
  | cons r rest ih =>
    obtain ⟨char, key, typed, hr, hq⟩ := stops_false_event r (hpre r (List.mem_cons_self r rest))
    subst hr
    have hrest : ∀ r ∈ rest, r.stops = false := fun r hr => hpre r (List.mem_cons_of_mem _ hr)
    unfold handleAll at hall
    cases hh : handleInput char key typed nl fs with
    | error e => rw [hh] at hall; cases hall
    | ok h =>
      rw [hh] at hall
      obtain ⟨tr, htr⟩ := ih hrest h.nl h.fs hall
      have hsq : h.shouldQuit = false := handleInput_not_quit char key typed nl fs hq h hh
      refine ⟨display nl ++ h.trace ++ tr, ?_⟩
      rw [List.cons_append]
      unfold mainLoop
      rw [hh]
      simp only [hsq, htr]
      rfl

theorem mainLoop_waits (pre : List ReadResult) (hpre : ∀ r ∈ pre, r.stops = false)
    (nl : NoLearn) (fs : FS) (hinv : Inv nl) : mainLoop pre nl fs = .ok none := by
  induction pre generalizing nl fs with
  | nil => rfl
  | cons r rest ih =>
    obtain ⟨char, key, typed, hr, hq⟩ := stops_false_event r (hpre r (List.mem_cons_self r rest))
    subst hr
    have hrest : ∀ r ∈ rest, r.stops = false := fun r hr => hpre r (List.mem_cons_of_mem _ hr)
    obtain ⟨h, hh, hinv'⟩ := handleInput_inv char key typed nl fs hinv
    have hsq : h.shouldQuit = false := handleInput_not_quit char key typed nl fs hq h hh
    unfold mainLoop
    rw [hh]
    simp only [hsq, ih hrest h.nl h.fs hinv']
    rfl

theorem handleAll_inv (keys : List ReadResult) (nl : NoLearn) (fs : FS) (hinv : Inv nl) :
    ∃ nl' fs', handleAll keys nl fs = .ok (nl', fs') ∧ Inv nl' := by
  induction keys generalizing nl fs with
  | nil => exact ⟨nl, fs, rfl, hinv⟩
  | cons r rest ih =>
    cases r with
    | error =>
      unfold handleAll
      exact ih nl fs hinv
    | event char key typed =>
      obtain ⟨h, hh, hinv'⟩ := handleInput_inv char key typed nl fs hinv
      obtain ⟨nl', fs', hall, hinv''⟩ := ih h.nl h.fs hinv'
      refine ⟨nl', fs', ?_, hinv''⟩
      unfold handleAll
      rw [hh]
      exact hall

theorem load_fresh_cursor (filename : String) (fs : FS) :
    (load (newNoLearn filename) fs).1.cursor = 0 := by
  unfold load
  split
  · rfl
  · split <;> rfl

theorem load_fresh_inv (filename : String) (fs : FS) :
    Inv (load (newNoLearn filename) fs).1 := by
  have hc := load_fresh_cursor filename fs
  constructor
  · intro hne
    have hpos : 0 < (load (newNoLearn filename) fs).1.tasks.length := List.length_pos.mpr hne
    rw [hc]
    constructor <;> omega
  · intro _
    exact hc

/-- C17: once the store is loaded and the keyboard opened, for every stream
of key-read results that holds a quit key or a read error, the main loop ends
at the first of them, not before (on the results before it alone the loop is
still waiting for a key), and reads nothing after it; the store it ends with is
the one obtained by handling the key events before it in order; `main` then
saves that store exactly once, reports success or the save error, and
returns. -/
theorem main_stops_and_saves_once (args : List String) (fs : FS) (pre : List ReadResult)
    (stop : ReadResult) (post : List ReadResult)
    (hload : (load (newNoLearn (argFilename args)) fs).2 = none)
    (hpre : ∀ r ∈ pre, r.stops = false) (hstop : stop.stops = true) :
    ∃ nlEnd fsEnd loopTrace,
      handleAll pre (load (newNoLearn (argFilename args)) fs).1 fs = .ok (nlEnd, fsEnd) ∧
      mainLoop pre (load (newNoLearn (argFilename args)) fs).1 fs = .ok none ∧
      mainLoop (pre ++ stop :: post) (load (newNoLearn (argFilename args)) fs).1 fs
        = .ok (some { nl := nlEnd, fs := fsEnd, trace := loopTrace, unread := post }) ∧
      main args true (pre ++ stop :: post) fs
        = .ok (some
            { nl := nlEnd, fs := (save nlEnd fsEnd).1, unread := post,
              trace := [Event.keyboardOpen] ++ hideCursor ++ loopTrace ++
                ([Event.save nlEnd.tasks (save nlEnd fsEnd).2,
                  match (save nlEnd fsEnd).2 with
                  | some err => Event.printError "Error saving tasks: %v\n" err
                  | none => Event.print "Tasks saved successfully.\n"]
                 ++ showCursor ++ [Event.keyboardClose]) }) ∧
      saveCount ([Event.save nlEnd.tasks (save nlEnd fsEnd).2,
                  match (save nlEnd fsEnd).2 with
                  | some err => Event.printError "Error saving tasks: %v\n" err
                  | none => Event.print "Tasks saved successfully.\n"]
                 ++ showCursor ++ [Event.keyboardClose]) = 1 := by
  obtain ⟨nlEnd, fsEnd, hall, _⟩ :=
    handleAll_inv pre (load (newNoLearn (argFilename args)) fs).1 fs
      (load_fresh_inv (argFilename args) fs)
  obtain ⟨tr, htr⟩ := mainLoop_stops pre stop post hpre hstop _ fs nlEnd fsEnd hall
  refine ⟨nlEnd, fsEnd, tr, hall,
    mainLoop_waits pre hpre _ fs (load_fresh_inv (argFilename args) fs), htr, ?_, ?_⟩
  · unfold main
    simp only [hload, htr, if_true, shutdown]
  · cases (save nlEnd fsEnd).2 <;> rfl

/-- Witness of C17: add a task, quit; the key after the quit key is never
read, and the final save writes the one task. -/
theorem main_stops_and_saves_once_witness :
    ∃ nlEnd fsEnd loopTrace,
      handleAll [ReadResult.event 'n' (Key.other 0) "Learn Go\n"]
          (load (newNoLearn (argFilename ["nolearn"])) FS.empty).1 FS.empty = .ok (nlEnd, fsEnd) ∧
      mainLoop ([ReadResult.event 'n' (Key.other 0) "Learn Go\n"]
            ++ ReadResult.event 'q' (Key.other 0) "" :: [ReadResult.event 'x' (Key.other 0) ""])
          (load (newNoLearn (argFilename ["nolearn"])) FS.empty).1 FS.empty
        = .ok (some { nl := nlEnd, fs := fsEnd, trace := loopTrace,
                      unread := [ReadResult.event 'x' (Key.other 0) ""] }) ∧
      nlEnd = ⟨[⟨"Learn Go", Todo⟩], 0, "tasks.json"⟩ := by
  obtain ⟨nlEnd, fsEnd, loopTrace, hall, _, hloop, _, _⟩ :=
    main_stops_and_saves_once ["nolearn"] FS.empty
      [ReadResult.event 'n' (Key.other 0) "Learn Go\n"]
      (ReadResult.event 'q' (Key.other 0) "") [ReadResult.event 'x' (Key.other 0) ""]
      (by decide) (by decide) (by decide)
  refine ⟨nlEnd, fsEnd, loopTrace, hall, hloop, ?_⟩
  have hnl : Except.map Prod.fst
      (handleAll [ReadResult.event 'n' (Key.other 0) "Learn Go\n"]
        (load (newNoLearn (argFilename ["nolearn"])) FS.empty).1 FS.empty)
      = .ok ⟨[⟨"Learn Go", Todo⟩], 0, "tasks.json"⟩ := by decide
  rw [hall] at hnl
  cases hnl
  rfl

/-! ## Rendering -/

theorem displayTasks_length (cursor : Int) (k : Nat) (tasks : List Task) :
    (displayTasks cursor k tasks).length = tasks.length := by
  induction tasks generalizing k with
  | nil => rfl
  | cons t rest ih => simp [displayTasks, ih]

theorem displayTasks_getElem (cursor : Int) (k : Nat) (tasks : List Task) (i : Nat) (t : Task)
    (ht : tasks[i]? = some t) :
    (displayTasks cursor k tasks)[i]?
      = some (Event.print
          (cursorMarker cursor (k + i) ++ statusMarker t.Status ++ " " ++ t.Text ++ "\n")) := by
  induction tasks generalizing k i with
  | nil => simp at ht
  | cons head rest ih =>
    cases i with
    | zero =>
      simp only [List.getElem?_cons_zero, Option.some.injEq] at ht
      subst ht
      simp [displayTasks]
    | succ j =>
      simp only [List.getElem?_cons_succ] at ht
      simp only [displayTasks, List.getElem?_cons_succ]
      rw [ih (k + 1) j ht]
      have hk : k + 1 + j = k + (j + 1) := by omega
      rw [hk]

/-- C18: for a non-empty task list `display` clears the screen, prints the
banner, the legend and the count header showing `len(tasks)`, and then exactly
`len(tasks)` task lines in list order; line `i` is the cursor marker (the arrow
and a blank if `i == cursor`, two blanks otherwise), the status glyph (`[ ]`
for `Todo`, `[~]` for `Seen`, `[✓]` for `Done`), a blank and the text of task
`i`; under the session invariant exactly one line carries the arrow.  For an
empty list it prints the banner, the legend and the empty-state hint, and no
task line. -/
theorem display_renders (nl : NoLearn) :
    (nl.tasks = [] →
      display nl =
        [Event.clearScreen,
         Event.print "Nolearn. Press 'q' or ESC to quit.\n",
         Event.print "Controls: e/↑=up, d/↓=down, f=cycle status forward, s=cycle status backward, n=new task, x=delete\n",
         Event.print "No tasks. Press 'n' to add a new task.\n"]) ∧
    (nl.tasks ≠ [] →
      ∃ lines,
        display nl =
          [Event.clearScreen,
           Event.print "Nolearn. Press 'q' or ESC to quit.\n",
           Event.print "Controls: e/↑=up, d/↓=down, f=cycle status forward, s=cycle status backward, n=new task, x=delete\n",
           Event.print ("Tasks (" ++ toString nl.tasks.length ++ " total):\n\n")] ++ lines ∧
        lines.length = nl.tasks.length ∧
        (∀ (i : Nat) (t : Task), nl.tasks[i]? = some t →
          ∃ marker glyph,
            lines[i]? = some (Event.print (marker ++ glyph ++ " " ++ t.Text ++ "\n")) ∧
            ((i : Int) = nl.cursor → marker = "▶ ") ∧
            ((i : Int) ≠ nl.cursor → marker = "  ") ∧
            (t.Status = Todo → glyph = "[ ]") ∧
            (t.Status = Seen → glyph = "[~]") ∧
            (t.Status = Done → glyph = "[✓]")) ∧
        ((0 ≤ nl.cursor ∧ nl.cursor < nl.tasks.length) →
          ∃! i : Nat, i < nl.tasks.length ∧ cursorMarker nl.cursor i = "▶ ")) := by
  constructor
  · intro he
    simp [display, he]
  · intro hne
    have hlen : ¬ nl.tasks.length = 0 := fun h => hne (List.length_eq_zero.mp h)
    refine ⟨displayTasks nl.cursor 0 nl.tasks, ?_, displayTasks_length _ _ _, ?_, ?_⟩
    · simp [display, hlen]
    · intro i t ht
      refine ⟨cursorMarker nl.cursor i, statusMarker t.Status, ?_, ?_, ?_, ?_, ?_, ?_⟩
      · have h := displayTasks_getElem nl.cursor 0 nl.tasks i t ht
        rw [Nat.zero_add] at h
        exact h
      · intro hi; simp [cursorMarker, hi]
      · intro hi; simp [cursorMarker, hi]
      · intro hs; rw [hs]; decide
      · intro hs; rw [hs]; decide
      · intro hs; rw [hs]; decide
    · rintro ⟨h0, h1⟩
      refine ⟨nl.cursor.toNat, ⟨by omega, ?_⟩, ?_⟩
      · have hc : ((nl.cursor.toNat : Nat) : Int) = nl.cursor := Int.toNat_of_nonneg h0
        simp [cursorMarker, hc]
      · rintro j ⟨_, hj⟩
        unfold cursorMarker at hj
        by_cases hjc : (j : Int) = nl.cursor
        · omega
        · rw [if_neg hjc] at hj
          exact absurd hj (by decide)

/-- Witness of C18: the empty store, and two tasks with the cursor on the
second. -/
theorem display_renders_witness :
    display (newNoLearn "tasks.json") =
      [Event.clearScreen,
       Event.print "Nolearn. Press 'q' or ESC to quit.\n",
       Event.print "Controls: e/↑=up, d/↓=down, f=cycle status forward, s=cycle status backward, n=new task, x=delete\n",
       Event.print "No tasks. Press 'n' to add a new task.\n"] ∧
    ∃! i : Nat, i < 2 ∧ cursorMarker 1 i = "▶ " := by
  refine ⟨(display_renders (newNoLearn "tasks.json")).1 rfl, ?_⟩
  obtain ⟨lines, _, _, _, huniq⟩ :=
    (display_renders ⟨[⟨"a", Todo⟩, ⟨"b", Done⟩], 1, "tasks.json"⟩).2 (by decide)
  exact huniq (by decide)

/-! ## Compositions of operations -/

theorem backward_forward_status (s : Status) :
    backwardStatus (forwardStatus s) = s ↔ s ≠ Done := by
  unfold backwardStatus forwardStatus
  by_cases h1 : s = Todo
  · subst h1; decide
  · by_cases h2 : s = Seen
    · subst h2; decide
    · by_cases h3 : s = Done
      · subst h3; decide
      · simp [h1, h2, h3]

theorem forward_backward_status (s : Status) :
    forwardStatus (backwardStatus s) = s ↔ s ≠ Todo := by
  unfold backwardStatus forwardStatus
  by_cases h1 : s = Todo
  · subst h1; decide
  · by_cases h2 : s = Seen
    · subst h2; decide
    · by_cases h3 : s = Done
      · subst h3; decide
      · simp [h1, h2, h3]

theorem set_eq_self_iff (l : List Task) (i : Nat) (x : Task) (hi : i < l.length) :
    l.set i x = l ↔ l[i]? = some x := by
  constructor
  · intro h
    have hg := congrArg (fun m : List Task => m[i]?) h
    simp only [List.getElem?_set_self hi] at hg
    exact hg.symm
  · intro h
    apply List.ext_getElem?
    intro j
    by_cases hj : i = j
    · subst hj
      rw [List.getElem?_set_self hi, h]
    · rw [List.getElem?_set_ne hj]

theorem cycle_twice (nl : NoLearn) (h0 : 0 ≤ nl.cursor) (h1 : nl.cursor < nl.tasks.length)
    (first second : Status → Status)
    (op1 op2 : NoLearn → Except Fault NoLearn)
    (hop1 : ∀ s : NoLearn, 0 ≤ s.cursor → s.cursor < s.tasks.length →
      ∃ t, s.tasks[s.cursor.toNat]? = some t ∧
        op1 s = .ok { s with tasks := s.tasks.set s.cursor.toNat { t with Status := first t.Status } })
    (hop2 : ∀ s : NoLearn, 0 ≤ s.cursor → s.cursor < s.tasks.length →
      ∃ t, s.tasks[s.cursor.toNat]? = some t ∧
        op2 s = .ok { s with tasks := s.tasks.set s.cursor.toNat { t with Status := second t.Status } }) :
    ∃ t mid, nl.tasks[nl.cursor.toNat]? = some t ∧ op1 nl = .ok mid ∧
      op2 mid = .ok { nl with
        tasks := nl.tasks.set nl.cursor.toNat { t with Status := second (first t.Status) } } := by
  obtain ⟨t, ht, hmid⟩ := hop1 nl h0 h1
  have hlt : nl.cursor.toNat < nl.tasks.length := by omega
  obtain ⟨t', ht', hend⟩ := hop2
    { nl with tasks := nl.tasks.set nl.cursor.toNat { t with Status := first t.Status } }
    h0 (by simpa using h1)
  simp only [List.getElem?_set_self hlt, Option.some.injEq] at ht'
  subst ht'
  refine ⟨t, _, ht, hmid, ?_⟩
  rw [hend]
  simp only [List.set_set]

theorem store_set_eq_iff (nl : NoLearn) (t : Task) (s : Status)
    (hlt : nl.cursor.toNat < nl.tasks.length) (ht : nl.tasks[nl.cursor.toNat]? = some t) :
    ({ nl with tasks := nl.tasks.set nl.cursor.toNat { t with Status := s } } : NoLearn) = nl
      ↔ s = t.Status := by
  constructor
  · intro h
    have htasks := congrArg NoLearn.tasks h
    simp only at htasks
    rw [set_eq_self_iff _ _ _ hlt, ht] at htasks
    simp only [Option.some.injEq] at htasks
    exact (congrArg Task.Status htasks).symm
  · intro h
    subst h
    have hset : nl.tasks.set nl.cursor.toNat { t with Status := t.Status } = nl.tasks :=
      (set_eq_self_iff _ _ _ hlt).mpr ht
    rw [hset]

/-- C19, as stated, fails: a task whose status is none of the three constants,
as `load` accepts it from a file, is left alone by `cycleStatusForward` and by
`cycleStatusBackward`, so both compositions restore the store although the
status is neither `Todo`, `Seen` nor `Done`. -/
theorem cycleStatus_restores_other_status :
    load (newNoLearn "tasks.json")
        (FS.empty.put "tasks.json"
          (.json (.array [.object [("text", .string "a"), ("status", .string "later")]])))
      = (⟨[⟨"a", "later"⟩], 0, "tasks.json"⟩, none) ∧
    cycleStatusForward ⟨[⟨"a", "later"⟩], 0, "tasks.json"⟩
      = .ok ⟨[⟨"a", "later"⟩], 0, "tasks.json"⟩ ∧
    cycleStatusBackward ⟨[⟨"a", "later"⟩], 0, "tasks.json"⟩
      = .ok ⟨[⟨"a", "later"⟩], 0, "tasks.json"⟩ ∧
    ¬ (("later" : Status) = Todo ∨ ("later" : Status) = Seen) ∧
    ¬ (("later" : Status) = Seen ∨ ("later" : Status) = Done) := by
  decide

/-- C19, amended: with a non-empty list and the cursor in range, both
compositions return normally; `cycleStatusBackward` after
`cycleStatusForward` restores the whole store exactly when the status of the
current task is not `Done`, and `cycleStatusForward` after
`cycleStatusBackward` exactly when it is not `Todo`.  For a status that is one
of `Todo`, `Seen`, `Done` this is: exactly when it is `Todo` or `Seen`,
respectively `Seen` or `Done`.  From `Done`, forward then backward gives
`Seen`; from `Todo`, backward then forward gives `Seen`. -/
theorem cycleStatus_compositions (nl : NoLearn) (h0 : 0 ≤ nl.cursor)
    (h1 : nl.cursor < nl.tasks.length) :
    ∃ t f fb b bf,
      nl.tasks[nl.cursor.toNat]? = some t ∧
      cycleStatusForward nl = .ok f ∧ cycleStatusBackward f = .ok fb ∧
      cycleStatusBackward nl = .ok b ∧ cycleStatusForward b = .ok bf ∧
      (fb = nl ↔ t.Status ≠ Done) ∧
      (bf = nl ↔ t.Status ≠ Todo) ∧
      ((t.Status = Todo ∨ t.Status = Seen ∨ t.Status = Done) →
        (fb = nl ↔ (t.Status = Todo ∨ t.Status = Seen)) ∧
        (bf = nl ↔ (t.Status = Seen ∨ t.Status = Done))) ∧
      (t.Status = Done →
        fb = { nl with tasks := nl.tasks.set nl.cursor.toNat { t with Status := Seen } }) ∧
      (t.Status = Todo →
        bf = { nl with tasks := nl.tasks.set nl.cursor.toNat { t with Status := Seen } }) := by
  have hlt : nl.cursor.toNat < nl.tasks.length := by omega
  obtain ⟨t, f, ht, hf, hfb⟩ := cycle_twice nl h0 h1 forwardStatus backwardStatus
    cycleStatusForward cycleStatusBackward
    (fun s a b => cycleStatusForward_ok s a b) (fun s a b => cycleStatusBackward_ok s a b)
  obtain ⟨t', b, ht', hb, hbf⟩ := cycle_twice nl h0 h1 backwardStatus forwardStatus
    cycleStatusBackward cycleStatusForward
    (fun s a b => cycleStatusBackward_ok s a b) (fun s a b => cycleStatusForward_ok s a b)
  rw [ht] at ht'
  simp only [Option.some.injEq] at ht'
  subst ht'
  have hA : ({ nl with
      tasks := nl.tasks.set nl.cursor.toNat
        ({ t with Status := backwardStatus (forwardStatus t.Status) } : Task) } : NoLearn) = nl
      ↔ t.Status ≠ Done :=
    (store_set_eq_iff nl t _ hlt ht).trans (backward_forward_status t.Status)
  have hB : ({ nl with
      tasks := nl.tasks.set nl.cursor.toNat
        ({ t with Status := forwardStatus (backwardStatus t.Status) } : Task) } : NoLearn) = nl
      ↔ t.Status ≠ Todo :=
    (store_set_eq_iff nl t _ hlt ht).trans (forward_backward_status t.Status)
  have hTS : Todo ≠ Seen := by decide
  have hTD : Todo ≠ Done := by decide
  have hSD : Seen ≠ Done := by decide
  refine ⟨t, f, _, b, _, ht, hf, hfb, hb, hbf, hA, hB, ?_, ?_, ?_⟩
  · intro henum
    constructor
    · rw [hA]
      rcases henum with h | h | h <;> rw [h] <;> simp [hTS, hTD, hSD, hTS.symm, hTD.symm, hSD.symm]
    · rw [hB]
      rcases henum with h | h | h <;> rw [h] <;> simp [hTS, hTD, hSD, hTS.symm, hTD.symm, hSD.symm]
  · intro hd
    rw [hd]
    have : backwardStatus (forwardStatus Done) = Seen := by decide
    rw [this]
  · intro htodo
    rw [htodo]
    have : forwardStatus (backwardStatus Todo) = Seen := by decide
    rw [this]

/-- Witness of C19 amended: one `Done` task; forward then backward leaves it
`Seen`. -/
theorem cycleStatus_compositions_witness :
    ∃ t f fb b bf,
      ([⟨"a", Done⟩] : List Task)[0]? = some t ∧
      cycleStatusForward ⟨[⟨"a", Done⟩], 0, "tasks.json"⟩ = .ok f ∧
      cycleStatusBackward f = .ok fb ∧
      cycleStatusBackward ⟨[⟨"a", Done⟩], 0, "tasks.json"⟩ = .ok b ∧
      cycleStatusForward b = .ok bf ∧
      (fb = ⟨[⟨"a", Done⟩], 0, "tasks.json"⟩ ↔ t.Status ≠ Done) := by
  obtain ⟨t, f, fb, b, bf, ht, hf, hfb, hb, hbf, hA, _⟩ :=
    cycleStatus_compositions ⟨[⟨"a", Done⟩], 0, "tasks.json"⟩ (by decide) (by decide)
  exact ⟨t, f, fb, b, bf, ht, hf, hfb, hb, hbf, hA⟩

/-- C20: for a non-empty text, `addTask` followed at once by
`deleteCurrentTask` returns normally with the task list as it was before the
add, the task removed being the one just added; the cursor is then the last
index of that list, 0 if the list is empty, whatever it was before.  This
holds in every state, so in every state satisfying the session invariant, and
there is such a state in which the cursor ends elsewhere than it began. -/
theorem addTask_then_deleteCurrentTask (nl : NoLearn) (text : String) (h : text ≠ "") :
    (∃ nl', deleteCurrentTask (addTask nl text) = .ok nl' ∧
      nl'.tasks = nl.tasks ∧
      (addTask nl text).tasks[(addTask nl text).cursor.toNat]?
        = some { Text := text, Status := Todo } ∧
      (nl.tasks ≠ [] → nl'.cursor = (nl.tasks.length : Int) - 1) ∧
      (nl.tasks = [] → nl'.cursor = 0) ∧
      nl'.filename = nl.filename) ∧
    (∃ nl0 : NoLearn,
      ((nl0.tasks ≠ [] → 0 ≤ nl0.cursor ∧ nl0.cursor < nl0.tasks.length) ∧
        (nl0.tasks = [] → nl0.cursor = 0)) ∧
      ∃ nl1, deleteCurrentTask (addTask nl0 "b") = .ok nl1 ∧ nl1.cursor ≠ nl0.cursor) := by
  constructor
  · have hadd : addTask nl text =
        { nl with tasks := nl.tasks ++ [{ Text := text, Status := Todo }]
                  cursor := ((nl.tasks ++ [({ Text := text, Status := Todo } : Task)]).length : Int) - 1 } := by
      unfold addTask
      rw [if_neg h]
    have hcur : (addTask nl text).cursor = (nl.tasks.length : Int) := by
      rw [hadd]; simp
    have hlen : (addTask nl text).tasks.length = nl.tasks.length + 1 := by
      rw [hadd]; simp
    have htasks : (addTask nl text).tasks = nl.tasks ++ [{ Text := text, Status := Todo }] := by
      rw [hadd]
    have hfile : (addTask nl text).filename = nl.filename := by
      rw [hadd]
    have hto : (addTask nl text).cursor.toNat = nl.tasks.length := by
      rw [hcur]; simp
    refine ⟨_, deleteCurrentTask_ok (addTask nl text) (by omega) (by omega), ?_, ?_, ?_, ?_, hfile⟩
    · simp only [hto, htasks]
      simp
    · rw [hto, htasks]
      simp
    · intro hne
      have hpos : 0 < nl.tasks.length := List.length_pos.mpr hne
      simp only [hlen, hcur]
      rw [if_neg (by omega), if_pos (by push_cast; omega)]
      push_cast
      omega
    · intro he
      simp only [hlen, he, List.length_nil]
      rfl
  · refine ⟨⟨[⟨"a", Todo⟩, ⟨"c", Todo⟩], 0, "tasks.json"⟩, by decide, ?_⟩
    exact ⟨⟨[⟨"a", Todo⟩, ⟨"c", Todo⟩], 1, "tasks.json"⟩, by decide, by decide⟩

/-- Witness of C20: add "b" to two tasks with the cursor on the first, then
delete; the list is back and the cursor is on the last task. -/
theorem addTask_then_deleteCurrentTask_witness :
    ∃ nl', deleteCurrentTask (addTask ⟨[⟨"a", Todo⟩, ⟨"c", Todo⟩], 0, "tasks.json"⟩ "b") = .ok nl' ∧
      nl'.tasks = [⟨"a", Todo⟩, ⟨"c", Todo⟩] ∧ nl'.cursor = 1 := by
  obtain ⟨nl', hok, htasks, _, hcur, _, _⟩ :=
    (addTask_then_deleteCurrentTask ⟨[⟨"a", Todo⟩, ⟨"c", Todo⟩], 0, "tasks.json"⟩ "b"
      (by decide)).1
  exact ⟨nl', hok, htasks, hcur (by decide)⟩

end Nolearn
